import Mathlib

/-!
Verification development for the billybjork.com content store and video
pipeline.  Python strings are modelled as `List Char`, bytes as `List Nat`
(each < 256), the filesystem as an association list from file stem to file
content.  External libraries (hashlib, PyYAML, the markdown renderer) are
modelled by executable Lean functions faithful to the fragment the
application exercises; every definition is translated from the source files
under review, except where a doc comment says otherwise.
-/

set_option maxRecDepth 10000

namespace Billy

/-- Python `str`, modelled as a list of characters. -/
abbrev Str := List Char

/-- The left-brace character, kept out of string literals. -/
def lbrace : Char := Char.ofNat 123

/-- The right-brace character. -/
def rbrace : Char := Char.ofNat 125

/-- The single-quote character. -/
def squote : Char := Char.ofNat 39

/-! ## SHA-256 (hashlib.sha256 model)

`content_revision` and `_revision_from_content` call `hashlib.sha256` on the
raw UTF-8 bytes of a file.  The full compression function is implemented
here over `Nat` with explicit `% 2^32` reductions. -/

/-- 32-bit truncating addition. -/
def add32 (a b : Nat) : Nat := (a + b) % 4294967296

/-- 32-bit right rotation. -/
def rotr32 (x n : Nat) : Nat :=
  ((x >>> n) ||| (x <<< (32 - n))) % 4294967296

/-- SHA-256 round constants (FIPS 180-2, written in decimal). -/
def shaK : List Nat :=
  [1116352408, 1899447441, 3049323471, 3921009573, 961987163,
   1508970993, 2453635748, 2870763221, 3624381080, 310598401,
   607225278, 1426881987, 1925078388, 2162078206, 2614888103,
   3248222580, 3835390401, 4022224774, 264347078, 604807628,
   770255983, 1249150122, 1555081692, 1996064986, 2554220882,
   2821834349, 2952996808, 3210313671, 3336571891, 3584528711,
   113926993, 338241895, 666307205, 773529912, 1294757372,
   1396182291, 1695183700, 1986661051, 2177026350, 2456956037,
   2730485921, 2820302411, 3259730800, 3345764771, 3516065817,
   3600352804, 4094571909, 275423344, 430227734, 506948616,
   659060556, 883997877, 958139571, 1322822218, 1537002063,
   1747873779, 1955562222, 2024104815, 2227730452, 2361852424,
   2428436474, 2756734187, 3204031479, 3329325298]

/-- SHA-256 initial hash state (FIPS 180-2, written in decimal). -/
def shaH0 : List Nat :=
  [1779033703, 3144134277, 1013904242, 2773480762,
   1359893119, 2600822924, 528734635, 1541459225]

/-- Big-endian byte serialization of `n` into `k` bytes. -/
def toBytesBE (k : Nat) (n : Nat) : List Nat :=
  (List.range k).map (fun i => (n >>> (8 * (k - 1 - i))) % 256)

/-- Append SHA-256 padding to a byte message. -/
def shaPad (msg : List Nat) : List Nat :=
  let r := msg.length % 64
  let k := (119 - r) % 64
  msg ++ (128 :: List.replicate k 0) ++ toBytesBE 8 ((8 * msg.length) % 18446744073709551616)

/-- Split a list into consecutive chunks of size `n` (fuel-structured so the
kernel can evaluate it; the fuel is the list length, which suffices because
each step drops at least one element when `n > 0`). -/
def chopAux (n : Nat) : Nat → List α → List (List α)
  | _, [] => []
  | 0, _ :: _ => []
  | fuel + 1, a :: l => (a :: l).take n :: chopAux n fuel ((a :: l).drop n)

/-- Split a list into consecutive chunks of size `n`. -/
def chop (n : Nat) (l : List α) : List (List α) :=
  if n = 0 then [] else chopAux n l.length l

/-- Assemble a big-endian 32-bit word from four bytes. -/
def wordOfBytes : List Nat → Nat
  | [a, b, c, d] => ((a * 256 + b) * 256 + c) * 256 + d
  | _ => 0

/-- SHA-256 message schedule: extend 16 words to 64. -/
def shaSchedule (w16 : List Nat) : List Nat :=
  (List.range 48).foldl
    (fun w _ =>
      let n := w.length
      let p := w.getD (n - 15) 0
      let q := w.getD (n - 2) 0
      let e0 := (rotr32 p 7) ^^^ ((rotr32 p 18) ^^^ (p >>> 3))
      let e1 := (rotr32 q 17) ^^^ ((rotr32 q 19) ^^^ (q >>> 10))
      w ++ [add32 (add32 (w.getD (n - 16) 0) e0) (add32 (w.getD (n - 7) 0) e1)])
    w16

/-- One SHA-256 compression round. -/
def shaRound (st : List Nat) (kw : Nat) : List Nat :=
  match st with
  | [a, b, c, d, e, f, g, h] =>
    let x1 := (rotr32 e 6) ^^^ ((rotr32 e 11) ^^^ (rotr32 e 25))
    let pick := (e &&& f) ^^^ (g &&& (4294967295 - e))
    let u1 := add32 h (add32 x1 (add32 pick kw))
    let x0 := (rotr32 a 2) ^^^ ((rotr32 a 13) ^^^ (rotr32 a 22))
    let vote := (a &&& b) ^^^ (c &&& (a ^^^ b))
    let u2 := add32 x0 vote
    [add32 u1 u2, a, b, c, add32 d u1, e, f, g]
  | other => other

/-- Compress one 64-byte block into the running state. -/
def shaCompress (st : List Nat) (block : List Nat) : List Nat :=
  let ws := shaSchedule ((chop 4 block).map wordOfBytes)
  let out := (List.range 64).foldl
    (fun s i => shaRound s (add32 (ws.getD i 0) (shaK.getD i 0))) st
  (List.range 8).map (fun i => add32 (st.getD i 0) (out.getD i 0))

/-- SHA-256 digest (32 bytes) of a byte message. -/
def sha256 (msg : List Nat) : List Nat :=
  ((chop 64 (shaPad msg)).foldl shaCompress shaH0).foldr
    (fun w acc => toBytesBE 4 w ++ acc) []

/-- Lower-case hex digit. -/
def hexChar (n : Nat) : Char :=
  if n < 10 then Char.ofNat (48 + n) else Char.ofNat (87 + n)

/-- Lower-case hex rendering of a byte list. -/
def bytesToHex (bs : List Nat) : Str :=
  bs.foldr (fun b acc => hexChar (b / 16) :: hexChar (b % 16) :: acc) []

/-- UTF-8 encoding of one character. -/
def utf8Char (c : Char) : List Nat :=
  let n := c.toNat
  if n < 128 then [n]
  else if n < 2048 then [192 + n / 64, 128 + n % 64]
  else if n < 65536 then [224 + n / 4096, 128 + (n / 64) % 64, 128 + n % 64]
  else [240 + n / 262144, 128 + (n / 4096) % 64, 128 + (n / 64) % 64, 128 + n % 64]

/-- UTF-8 encoding of a string. -/
def utf8Encode (s : Str) : List Nat :=
  s.foldr (fun c acc => utf8Char c ++ acc) []

/-- Hex digest of the SHA-256 of a byte message, as `hashlib.sha256(..).hexdigest()`. -/
def sha256hex (msg : List Nat) : Str := bytesToHex (sha256 msg)

/-- `_revision_from_content` / the hashing step of `content_revision`:
`"sha256:" + hashlib.sha256(content.encode("utf-8")).hexdigest()[:16]`. -/
def revStr (content : Str) : Str :=
  "sha256:".data ++ (sha256hex (utf8Encode content)).take 16

/-! ## YAML values

`yaml.safe_load` on a project frontmatter block produces a Python value;
the fragment the application reads and writes is modelled by `YVal`:
plain/quoted string scalars, integers, booleans, null, ISO dates (PyYAML's
timestamp resolver turns `YYYY-MM-DD` into `datetime.date`), and one level
of block mappings.  Inputs outside this fragment are modelled as parse
failures (`none`), mirroring a `yaml.YAMLError`. -/

inductive YScalar where
  | str (s : Str)
  | int (n : Int)
  | bool (b : Bool)
  | null
  | date (y m d : Nat)
deriving DecidableEq, Repr

/-- A frontmatter value: a scalar or a (nested) block mapping of scalars. -/
inductive YVal where
  | prim (v : YScalar)
  | map (entries : List (Str × YScalar))
deriving DecidableEq, Repr

/-- A loaded YAML document: a scalar or a top-level mapping whose values
may themselves be one-level mappings (the `video` block). -/
inductive YDoc where
  | prim (v : YScalar)
  | map (entries : List (Str × YVal))
deriving DecidableEq, Repr

/-- Python truthiness of a scalar. -/
def pyTruthyS : YScalar → Bool
  | .str s => !s.isEmpty
  | .int n => n ≠ 0
  | .bool b => b
  | .null => false
  | .date _ _ _ => true

/-- Python truthiness of a frontmatter value. -/
def pyTruthyV : YVal → Bool
  | .prim v => pyTruthyS v
  | .map m => !m.isEmpty

/-- Python truthiness of a loaded document. -/
def pyTruthyD : YDoc → Bool
  | .prim v => pyTruthyS v
  | .map m => !m.isEmpty

/-- Does `s` contain `pat` as a contiguous substring? -/
def containsSub (pat : Str) (s : Str) : Bool :=
  match s with
  | [] => pat.isEmpty
  | _ :: rest => pat.isPrefixOf s || containsSub pat rest

/-! ## Decimal integers -/

/-- Decimal digits of `n`, most significant first (fuel-structured). -/
def natToStrGo : Nat → Nat → Str
  | 0, _ => []
  | fuel + 1, n =>
    if n < 10 then [Char.ofNat (48 + n)]
    else natToStrGo fuel (n / 10) ++ [Char.ofNat (48 + n % 10)]

/-- Decimal rendering of a natural number. -/
def natToStr (n : Nat) : Str := natToStrGo (n + 1) n

/-- Decimal rendering of an integer (Python `str(int)`). -/
def intToStr : Int → Str
  | .ofNat n => natToStr n
  | .negSucc m => '-' :: natToStr (m + 1)

/-- ASCII decimal digit test. -/
def isDigitChar (c : Char) : Bool := 48 ≤ c.toNat && c.toNat ≤ 57

/-- Value of a digit string, most significant first. -/
def digitsToNat (s : Str) : Nat := s.foldl (fun acc c => acc * 10 + (c.toNat - 48)) 0

/-- The Python exceptions the modelled paths can raise or catch.
`yamlError` stands for `yaml.YAMLError` (caught by `parse_frontmatter`);
`valueError` and `attributeError` propagate to the caller. -/
inductive PyErr where
  | valueError (msg : Str)
  | attributeError
  | yamlError
deriving DecidableEq, Repr

instance [DecidableEq ε] [DecidableEq α] : DecidableEq (Except ε α) := fun x y =>
  match x, y with
  | .ok a, .ok b =>
    if h : a = b then isTrue (by rw [h])
    else isFalse (by intro he; cases he; exact h rfl)
  | .error a, .error b =>
    if h : a = b then isTrue (by rw [h])
    else isFalse (by intro he; cases he; exact h rfl)
  | .ok _, .error _ => isFalse (by intro he; cases he)
  | .error _, .ok _ => isFalse (by intro he; cases he)

/-! ## ISO dates (PyYAML timestamp fragment) -/

/-- Gregorian leap year test, as Python's `calendar.isleap`. -/
def isLeapYear (y : Nat) : Bool := y % 4 = 0 && (y % 100 ≠ 0 || y % 400 = 0)

/-- Cumulative days before each month in a non-leap year. -/
def daysBeforeMonth : List Nat := [0, 31, 59, 90, 120, 151, 181, 212, 243, 273, 304, 334]

/-- Number of days in a month. -/
def daysInMonth (y m : Nat) : Nat :=
  if m = 2 then (if isLeapYear y then 29 else 28)
  else ([31, 28, 31, 30, 31, 30, 31, 31, 30, 31, 30, 31]).getD (m - 1) 0

/-- Proleptic Gregorian ordinal, as Python's `date.toordinal()`. -/
def dateOrdinal (y m d : Nat) : Nat :=
  365 * (y - 1) + (y - 1) / 4 - (y - 1) / 100 + (y - 1) / 400 +
    daysBeforeMonth.getD (m - 1) 0 +
    (if isLeapYear y && m > 2 then 1 else 0) + d

/-- Left-pad a digit string with zeros to width `w`. -/
def padZeros (w : Nat) (s : Str) : Str := List.replicate (w - s.length) '0' ++ s

/-- ISO `YYYY-MM-DD` rendering of a date. -/
def isoOfDate (y m d : Nat) : Str :=
  padZeros 4 (natToStr y) ++ '-' :: padZeros 2 (natToStr m) ++ '-' :: padZeros 2 (natToStr d)

/-- Does a scalar have the `YYYY-MM-DD` shape of PyYAML's simple timestamp
resolver? -/
def isDateShape (v : Str) : Bool :=
  v.length = 10 && (v.take 4).all isDigitChar && v.getD 4 ' ' = '-' &&
  ((v.drop 5).take 2).all isDigitChar && v.getD 7 ' ' = '-' &&
  ((v.drop 8).take 2).all isDigitChar

/-- Construct the date value of a `YYYY-MM-DD` scalar.  PyYAML's
`construct_yaml_timestamp` calls `datetime.date(year, month, day)`
directly, so out-of-range components raise `ValueError` — which the
`except yaml.YAMLError` in `parse_frontmatter` does NOT catch.  The
checks and messages follow `datetime.date` (year first, then month, then
day; the four-digit shape already bounds the year by 9999). -/
def mkDate (v : Str) : Except PyErr YScalar :=
  let y := digitsToNat (v.take 4)
  let m := digitsToNat ((v.drop 5).take 2)
  let d := digitsToNat ((v.drop 8).take 2)
  if y = 0 then .error (.valueError (("year 0 is out of range").data))
  else if m = 0 || 12 < m then
    .error (.valueError (("month must be in 1..12").data))
  else if d = 0 || daysInMonth y m < d then
    .error (.valueError (("day is out of range for month").data))
  else .ok (.date y m d)

/-! ## Scalar resolution (`yaml.safe_load` resolver fragment) -/

/-- PyYAML null words. -/
def nullWords : List Str := ["null", "Null", "NULL", "~"].map String.data

/-- PyYAML true words. -/
def trueWords : List Str :=
  ["true", "True", "TRUE", "yes", "Yes", "YES", "on", "On", "ON"].map String.data

/-- PyYAML false words. -/
def falseWords : List Str :=
  ["false", "False", "FALSE", "no", "No", "NO", "off", "Off", "OFF"].map String.data

/-- ASCII letter test (the modelled fragment is ASCII). -/
def isAlphaCh (c : Char) : Bool :=
  (65 ≤ c.toNat && c.toNat ≤ 90) || (97 ≤ c.toNat && c.toNat ≤ 122)

/-- ASCII letter-or-digit test. -/
def isAlnumCh (c : Char) : Bool := isAlphaCh c || isDigitChar c

/-- Characters that keep a scalar out of the modelled plain-string class. -/
def plainForbidden : List Char :=
  [lbrace, rbrace, '\t', '#', squote, '"', '`', ',', '[', ']', '&', '*', '!', '|', '>', '%', '@', '?']

/-- Modelled plain (unquoted) string scalar: starts with a letter, avoids
YAML indicator characters, has no `": "` and does not end in `:`. -/
def plainStrOk (v : Str) : Bool :=
  v.head?.any isAlphaCh &&
  v.all (fun c => ¬ plainForbidden.contains c) &&
  ¬ containsSub (": ".data) v &&
  v.getLast? ≠ some ':' && v.getLast? ≠ some ' '

/-- Tail of the scalar resolver: sign, single-quote and plain-string
discrimination for texts that passed none of the word/shape tests. -/
def resolveTail : Str → Except PyErr YVal
  | c :: rest =>
    if c = '-' then
      if !rest.isEmpty && rest.all isDigitChar then
        .ok (.prim (.int (-(digitsToNat rest : Int))))
      else .error .yamlError
    else if c = squote then
      match rest.getLast? with
      | some lastc =>
        if lastc = squote && ¬ rest.dropLast.contains squote then
          .ok (.prim (.str rest.dropLast))
        else .error .yamlError
      | none => .error .yamlError
    else if plainStrOk (c :: rest) then .ok (.prim (.str (c :: rest)))
    else .error .yamlError
  | [] => .error .yamlError

/-- Resolve one (already space-trimmed) scalar text to a YAML value.
A date-shaped text with out-of-range components raises the uncaught
`ValueError` of `datetime.date`; a text outside the modelled fragment is
conservatively mapped to `yamlError` (a load failure). -/
def resolveScalar (v : Str) : Except PyErr YVal :=
  if v = [] then .ok (.prim .null)
  else if nullWords.contains v then .ok (.prim .null)
  else if trueWords.contains v then .ok (.prim (.bool true))
  else if falseWords.contains v then .ok (.prim (.bool false))
  else if v = [lbrace, rbrace] then .ok (.map [])
  else if isDateShape v then
    match mkDate v with
    | .ok d => .ok (.prim d)
    | .error e => .error e
  else if v.all isDigitChar then .ok (.prim (.int (digitsToNat v)))
  else resolveTail v

/-- Drop leading and trailing spaces. -/
def trimSpaces (s : Str) : Str :=
  ((s.dropWhile (· = ' ')).reverse.dropWhile (· = ' ')).reverse

/-! ## Block mapping parsing (`yaml.safe_load` document fragment) -/

/-- Split a line at the first `":"` that is followed by a space or ends the
line; returns (raw key text, raw value text). -/
def splitKV : Str → Option (Str × Str)
  | [] => none
  | c :: rest =>
    if c = ':' then
      match rest with
      | [] => some ([], [])
      | c2 :: v2 =>
        if c2 = ' ' then some ([], v2)
        else (fun p => (c :: p.1, p.2)) <$> splitKV rest
    else (fun p => (c :: p.1, p.2)) <$> splitKV rest

/-- Split a string into lines at newline characters. -/
def splitNl : Str → List Str
  | [] => [[]]
  | c :: rest =>
    if c = '\n' then [] :: splitNl rest
    else
      match splitNl rest with
      | l :: ls => (c :: l) :: ls
      | [] => [[c]]

/-- One right-fold step of the line grouping: an indented line is dedented
onto the pending block, any other line closes an entry. -/
def groupStep (line : Str) (acc : List Str × List (Str × List Str)) :
    List Str × List (Str × List Str) :=
  if ("  ".data).isPrefixOf line then (line.drop 2 :: acc.1, acc.2)
  else (([] : List Str), (line, acc.1) :: acc.2)

/-- Group top-level lines with the two-space-indented block that follows
each of them; fails when the document starts with an indented line. -/
def groupEntries (lines : List Str) : Option (List (Str × List Str)) :=
  let res := lines.foldr groupStep ([], [])
  if res.1 = [] then some res.2 else none

/-- Parse one dedented nested-block line (scalar values only). -/
def parseSubLine (line : Str) : Except PyErr (Str × YScalar) :=
  if line.head? = some ' ' then .error .yamlError
  else
    match splitKV line with
    | none => .error .yamlError
    | some kv => do
      let key ← resolveScalar (trimSpaces kv.1)
      match key with
      | .prim (.str k) => do
        let v ← resolveScalar (trimSpaces kv.2)
        match v with
        | .prim sc => pure (k, sc)
        | .map _ => .error .yamlError
      | _ => .error .yamlError

/-- Parse one grouped top-level entry into a key/value pair. -/
def parseEntry (entry : Str × List Str) : Except PyErr (Str × YVal) :=
  if entry.1.head? = some ' ' then .error .yamlError
  else
    match splitKV entry.1 with
    | none => .error .yamlError
    | some kv => do
      let key ← resolveScalar (trimSpaces kv.1)
      match key with
      | .prim (.str k) =>
        let vtxt := trimSpaces kv.2
        if vtxt = [] then
          match entry.2 with
          | [] => pure (k, .prim .null)
          | sub => do
            let m ← sub.mapM parseSubLine
            if (m.map Prod.fst).Nodup then pure (k, .map m) else .error .yamlError
        else
          if entry.2 = [] then do
            let v ← resolveScalar vtxt
            pure (k, v)
          else .error .yamlError
      | _ => .error .yamlError

/-- Fallback for a document that is not a modelled block mapping: a single
scalar line. -/
def yamlScalarDoc (lines : List Str) : Except PyErr YDoc :=
  match lines with
  | [l] =>
    match resolveScalar (trimSpaces l) with
    | .ok (.prim v) => .ok (.prim v)
    | .ok (.map m) => .ok (.map (m.map (fun kv => (kv.1, .prim kv.2))))
    | .error e => .error e
  | _ => .error .yamlError

/-- Load a YAML document (the frontmatter text between the `---` fences):
a block mapping or a single scalar.  `valueError` (an out-of-range date
constructed by `datetime.date`) propagates; `yamlError` covers both
genuine `yaml.YAMLError`s and inputs outside the modelled fragment. -/
def yamlLoadDoc (s : Str) : Except PyErr YDoc :=
  if s = [] then .ok (.prim .null)
  else
    let lines := splitNl s
    match groupEntries lines with
    | some entries =>
      match entries.mapM parseEntry with
      | .ok m => if (m.map Prod.fst).Nodup then .ok (.map m) else .error .yamlError
      | .error (.valueError msg) => .error (.valueError msg)
      | .error _ => yamlScalarDoc lines
    | none => yamlScalarDoc lines

/-! ## The frontmatter regex

`parse_frontmatter` matches `^---\s*\n(.*?)\n---\s*\n(.*)$` with
`re.DOTALL`.  The model below reproduces the backtracking search: the
opening `\s*\n` tries its candidate end positions longest first, the lazy
group scans forward for the first `\n---` whose following `\s*\n` can
match, and that inner `\s*` is again greedy. -/

/-- Python `\s` character class. -/
def isPySpace (c : Char) : Bool :=
  c = ' ' || c = '\t' || c = '\n' || c = '\r' || c = Char.ofNat 11 || c = Char.ofNat 12

/-- Greedy `\s*\n`: consume the longest whitespace run that ends just
before a newline, returning the remainder after that newline. -/
def wsNlDrop : Str → Option Str
  | [] => none
  | c :: rest =>
    if isPySpace c then
      match wsNlDrop rest with
      | some r => some r
      | none => if c = '\n' then some rest else none
    else none

/-- All remainders reachable by `\s*\n`, longest consumed run first — the
order a backtracking matcher tries them in. -/
def wsNlDropAll : Str → List Str
  | [] => []
  | c :: rest =>
    if isPySpace c then
      wsNlDropAll rest ++ (if c = '\n' then [rest] else [])
    else []

/-- Match `---\s*\n` at a position. -/
def closeAt : Str → Option Str
  | '-' :: '-' :: '-' :: tail => wsNlDrop tail
  | _ => none

/-- Lazy scan for the first `\n---\s*\n`; returns (group 1, group 2). -/
def findClose : Str → Option (Str × Str)
  | [] => none
  | c :: rest =>
    if c = '\n' then
      match closeAt rest with
      | some body => some ([], body)
      | none => (fun p => (c :: p.1, p.2)) <$> findClose rest
    else (fun p => (c :: p.1, p.2)) <$> findClose rest

/-- The full regex `^---\s*\n(.*?)\n---\s*\n(.*)$` with DOTALL. -/
def parseFmSplit : Str → Option (Str × Str)
  | '-' :: '-' :: '-' :: rest => (wsNlDropAll rest).findSome? findClose
  | _ => none

/-- `parse_frontmatter`: split frontmatter from body; the `except
yaml.YAMLError` handler (and the falsy-document `or` branch) yields an
empty mapping, while any other exception — the date `ValueError` —
propagates to the caller. -/
def parseFrontmatter (content : Str) : Except PyErr (YDoc × Str) :=
  match parseFmSplit content with
  | some (g1, g2) =>
    match yamlLoadDoc g1 with
    | .ok d => .ok (if pyTruthyD d then d else .map [], g2)
    | .error .yamlError => .ok (.map [], g2)
    | .error e => .error e
  | none => .ok (.map [], content)

/-! ## YAML dump (`yaml.dump` fragment used by `serialize_frontmatter`)

The emitter is modelled for the value class the save path produces:
plain-safe strings are emitted unquoted; other newline/quote-free strings
and dates are single-quoted (PyYAML quotes any scalar whose plain form
would resolve to a different tag); integers, booleans and null use their
canonical forms; one nesting level of block mappings with two-space
indent; an empty top-level mapping dumps as the flow form. -/

/-- Strings PyYAML emits in plain (unquoted) style and the resolver reads
back unchanged: starts with a letter, uses only word characters, spaces
and `. / _ - :`, no trailing space or colon, no `": "`, and is not a
null/bool word. -/
def plainSafe (s : Str) : Bool :=
  s.head?.any isAlphaCh &&
  s.all (fun c => isAlnumCh c || [' ', '.', '/', '_', '-', ':'].contains c) &&
  s.getLast? ≠ some ' ' && s.getLast? ≠ some ':' &&
  ¬ containsSub (": ".data) s &&
  ¬ nullWords.contains s && ¬ trueWords.contains s && ¬ falseWords.contains s

/-- Emit one scalar value. -/
def dumpScalar : YScalar → Str
  | .str s => if plainSafe s then s else squote :: (s ++ [squote])
  | .int n => intToStr n
  | .bool true => "true".data
  | .bool false => "false".data
  | .null => "null".data
  | .date y m d => squote :: (isoOfDate y m d ++ [squote])

/-- Emit the line(s) of one frontmatter entry. -/
def dumpEntryLines : Str × YVal → List Str
  | (k, .map (e :: es)) =>
    (k ++ ":".data) ::
      ((e :: es).map (fun kv => "  ".data ++ kv.1 ++ ": ".data ++ dumpScalar kv.2))
  | (k, .map []) => [k ++ ": ".data ++ [lbrace, rbrace]]
  | (k, .prim v) => [k ++ ": ".data ++ dumpScalar v]

/-- Lines of `yaml.dump(frontmatter, default_flow_style=False, sort_keys=False)`. -/
def dumpFM (fm : List (Str × YVal)) : List Str :=
  match fm with
  | [] => [[lbrace, rbrace]]
  | _ => (fm.map dumpEntryLines).flatten

/-- Join lines, terminating each with a newline. -/
def joinNl (lines : List Str) : Str := (lines.map (· ++ ['\n'])).flatten

/-- `serialize_frontmatter`: `f"---\n{yaml.dump(fm)}---\n\n{md}"`. -/
def serializeFrontmatter (fm : List (Str × YVal)) (md : Str) : Str :=
  "---\n".data ++ joinNl (dumpFM fm) ++ "---\n\n".data ++ md

/-! ## The persisted-value fragment (claim C1 support)

The round-trip claim quantifies over the dictionaries the save path
actually persists.  The predicates below carve out that fragment: scalars
the modelled emitter writes in a form the resolver reads back unchanged,
one level of nesting, plain keys with no duplicates, and a body whose
leading whitespace holds no newline (the regex's trailing greedy `\s*\n`
would otherwise absorb it). -/

/-- Scalars whose dumped form resolves back to the same value: strings
free of newlines and single quotes, integers, booleans, null.  (A dumped
date is re-read as a quoted string, not a `datetime.date`.) -/
def scalarDumpable : YScalar → Bool
  | .str s => !s.contains '\n' && !s.contains squote
  | .int _ => true
  | .bool _ => true
  | .null => true
  | .date _ _ _ => false

/-- Values whose dumped entry parses back: a dumpable scalar, or a nested
mapping of plain keys and dumpable scalars with distinct keys. -/
def valDumpable : YVal → Bool
  | .prim v => scalarDumpable v
  | .map sub =>
    sub.all (fun kv => plainSafe kv.1 && scalarDumpable kv.2) &&
    decide ((sub.map Prod.fst).Nodup)

/-- Frontmatter dictionaries in the persisted fragment: plain keys,
dumpable values, distinct keys. -/
def fmDumpable (fm : List (Str × YVal)) : Bool :=
  fm.all (fun kv => plainSafe kv.1 && valDumpable kv.2) &&
  decide ((fm.map Prod.fst).Nodup)

/-- The body's leading whitespace run contains no newline. -/
def mdLeadOk (md : Str) : Bool := !(md.takeWhile isPySpace).contains '\n'

/-- Join lines with single newlines between them (the shape of group 1 of
the frontmatter regex). -/
def intercalateNl : List Str → Str
  | [] => []
  | [l] => l
  | l :: ls => l ++ '\n' :: intercalateNl ls

/-- A dumped line as the backtracking close-fence search sees it:
nonempty, newline-free, and not starting with `-`. -/
def lineOk (l : Str) : Bool :=
  match l with
  | [] => false
  | c :: rest => c ≠ '-' && !(c :: rest).contains '\n'

/-- Head line of one dumped frontmatter entry. -/
def entryHeadLine : Str × YVal → Str
  | (k, .map (_ :: _)) => k ++ ":".data
  | (k, .map []) => k ++ ": ".data ++ [lbrace, rbrace]
  | (k, .prim v) => k ++ ": ".data ++ dumpScalar v

/-- Dedented nested lines of one dumped frontmatter entry. -/
def entrySubLines : Str × YVal → List Str
  | (_, .map (e :: es)) =>
    (e :: es).map (fun kv => kv.1 ++ ": ".data ++ dumpScalar kv.2)
  | _ => []

/-! ## The content store (utils/content.py)

The projects directory is modelled as an association list from file stem
(the slug) to file content; the mtime/size-keyed parse and HTML caches are
not modelled (every claim under verification concerns post-invalidation
behaviour, where cached and uncached reads coincide), and the best-effort
S3 mirror/archive calls are elided (they never affect the caller-visible
result).  Python exceptions are modelled with `Except PyErr`. -/

/-- Association-list lookup (first match). -/
def alLookup (k : Str) : List (Str × α) → Option α
  | [] => none
  | e :: rest => if e.1 = k then some e.2 else alLookup k rest

/-- Association-list write: replace the first binding or append. -/
def alSet (k : Str) (v : α) : List (Str × α) → List (Str × α)
  | [] => [(k, v)]
  | e :: rest => if e.1 = k then (k, v) :: rest else e :: alSet k v rest

/-- Association-list removal of the first binding. -/
def alRemove (k : Str) : List (Str × α) → List (Str × α)
  | [] => []
  | e :: rest => if e.1 = k then rest else e :: alRemove k rest

/-- The projects directory: file stem ↦ file content. -/
abbrev FS := List (Str × Str)

/-- Lower-case letter or digit — the first-character class of `SLUG_PATTERN`. -/
def isSlugStart (c : Char) : Bool :=
  (97 ≤ c.toNat && c.toNat ≤ 122) || isDigitChar c

/-- The language of `SLUG_PATTERN` itself: `[a-z0-9][a-z0-9_-]*`. -/
def slugLang (s : Str) : Bool :=
  match s with
  | [] => false
  | c :: rest => isSlugStart c && rest.all (fun d => isSlugStart d || d = '_' || d = '-')

/-- `validate_slug`: `bool(re.match(r'^[a-z0-9][a-z0-9_-]*$', slug))`.
Python's `$` (without `re.MULTILINE`) also matches just before a newline
that ends the string, so a slug of the pattern's language followed by
exactly one trailing `'\n'` is accepted as well. -/
def validSlug (s : Str) : Bool :=
  slugLang s || (s.getLast? = some '\n' && slugLang s.dropLast)

/-- `content_revision`: `None` when the file is absent, otherwise
`"sha256:" + sha256(bytes).hexdigest()[:16]`. -/
def contentRevision (fs : FS) (slug : Str) : Option Str :=
  (alLookup slug fs).map revStr

/-- The flattened record `load_project` returns (HTML rendering, performed
by the external markdown library, carries no claim under verification and
is omitted).  Field values are dynamic Python values, hence `YVal`;
Python `None` is `.prim .null`. -/
structure Project where
  slug : Str
  name : YVal
  creation_date : YVal
  is_draft : YVal
  pinned : YVal
  youtube_link : YVal
  markdown_content : Str
  revision : Option Str
  video_link : YVal
  thumbnail_link : YVal
  sprite_sheet_link : YVal
  frames : YVal
  columns : YVal
  rows : YVal
  frame_width : YVal
  frame_height : YVal
  fps : YVal
  video_width : YVal
  video_height : YVal
deriving DecidableEq, Repr

/-- `frontmatter.get(key, default)` on a parsed mapping. -/
def fmGet (m : List (Str × YVal)) (k : String) (dflt : YVal) : YVal :=
  (alLookup k.data m).getD dflt

/-- `video.get(key)` on the nested video mapping. -/
def videoGet (vm : List (Str × YScalar)) (k : String) : YVal :=
  .prim ((alLookup k.data vm).getD .null)

/-- `load_project`: slug validation, file lookup, frontmatter parse and
field flattening.  A truthy non-mapping frontmatter document (or truthy
non-mapping `video` value) raises `AttributeError` at the first `.get`,
exactly as the Python does. -/
def loadProject (fs : FS) (slug : Str) : Except PyErr (Option Project) :=
  if ¬ validSlug slug then .ok none
  else
    match alLookup slug fs with
    | none => .ok none
    | some content =>
      match parseFrontmatter content with
      | .error e => .error e
      | .ok pf =>
      match pf.1 with
      | .prim _ => .error .attributeError
      | .map m =>
        let base : Project :=
          { slug := slug
            name := fmGet m "name" (.prim (.str slug))
            creation_date := fmGet m "date" (.prim .null)
            is_draft := fmGet m "draft" (.prim (.bool false))
            pinned := fmGet m "pinned" (.prim (.bool false))
            youtube_link := fmGet m "youtube" (.prim .null)
            markdown_content := pf.2
            revision := some (revStr content)
            video_link := .prim .null, thumbnail_link := .prim .null
            sprite_sheet_link := .prim .null, frames := .prim .null
            columns := .prim .null, rows := .prim .null
            frame_width := .prim .null, frame_height := .prim .null
            fps := .prim .null, video_width := .prim .null
            video_height := .prim .null }
        let video := fmGet m "video" (.map [])
        if pyTruthyV video then
          match video with
          | .map vm =>
            .ok (some { base with
              video_link := videoGet vm "hls"
              thumbnail_link := videoGet vm "thumbnail"
              sprite_sheet_link := videoGet vm "spriteSheet"
              frames := videoGet vm "frames"
              columns := videoGet vm "columns"
              rows := videoGet vm "rows"
              frame_width := videoGet vm "frame_width"
              frame_height := videoGet vm "frame_height"
              fps := videoGet vm "fps"
              video_width := videoGet vm "video_width"
              video_height := videoGet vm "video_height" })
          | .prim _ => .error .attributeError
        else .ok (some base)

/-- `save_project`: slug validation, serialize, overwrite (cache
invalidation and best-effort S3 sync elided). -/
def saveProject (fs : FS) (slug : Str) (fm : List (Str × YVal)) (md : Str) :
    Except PyErr FS :=
  if ¬ validSlug slug then .error (.valueError ("Invalid slug: ".data ++ slug))
  else .ok (alSet slug (serializeFrontmatter fm md) fs)

/-- `delete_project`: slug validation, existence check, unlink (S3
archive/delete elided). -/
def deleteProject (fs : FS) (slug : Str) : Except PyErr (FS × Bool) :=
  if ¬ validSlug slug then .error (.valueError ("Invalid slug: ".data ++ slug))
  else
    match alLookup slug fs with
    | some _ => .ok (alRemove slug fs, true)
    | none => .ok (fs, false)

/-- The `video` key, when present with a scalar value, is falsy (the save
path only ever writes a mapping or omits the key; a truthy scalar would
raise `AttributeError` at `video.get` in `load_project`). -/
def videoFieldOk (fm : List (Str × YVal)) : Bool :=
  match alLookup ("video").data fm with
  | some (.prim s) => !pyTruthyS s
  | _ => true

/-- The record `load_project` returns after a round-trip: each field drawn
from the saved frontmatter with the documented default for absent keys,
the body as markdown content, and the revision of the serialized file. -/
def expectedProject (slug : Str) (fm : List (Str × YVal)) (md : Str) : Project :=
  let base : Project :=
    { slug := slug
      name := fmGet fm "name" (.prim (.str slug))
      creation_date := fmGet fm "date" (.prim .null)
      is_draft := fmGet fm "draft" (.prim (.bool false))
      pinned := fmGet fm "pinned" (.prim (.bool false))
      youtube_link := fmGet fm "youtube" (.prim .null)
      markdown_content := md
      revision := some (revStr (serializeFrontmatter fm md))
      video_link := .prim .null, thumbnail_link := .prim .null
      sprite_sheet_link := .prim .null, frames := .prim .null
      columns := .prim .null, rows := .prim .null
      frame_width := .prim .null, frame_height := .prim .null
      fps := .prim .null, video_width := .prim .null
      video_height := .prim .null }
  match fmGet fm "video" (.map []) with
  | .map (e :: es) =>
    { base with
      video_link := videoGet (e :: es) "hls"
      thumbnail_link := videoGet (e :: es) "thumbnail"
      sprite_sheet_link := videoGet (e :: es) "spriteSheet"
      frames := videoGet (e :: es) "frames"
      columns := videoGet (e :: es) "columns"
      rows := videoGet (e :: es) "rows"
      frame_width := videoGet (e :: es) "frame_width"
      frame_height := videoGet (e :: es) "frame_height"
      fps := videoGet (e :: es) "fps"
      video_width := videoGet (e :: es) "video_width"
      video_height := videoGet (e :: es) "video_height" }
  | _ => base

/-! ## Date parsing and the gallery sort (`load_all_projects`) -/

/-- Split a string at a separator character. -/
def splitOnChar (sep : Char) : Str → List Str
  | [] => [[]]
  | c :: rest =>
    if c = sep then [] :: splitOnChar sep rest
    else
      match splitOnChar sep rest with
      | l :: ls => (c :: l) :: ls
      | [] => [[c]]

/-- Does `strptime(value, "%Y-%m-%d")` succeed: four-digit year, one- or
two-digit month and day, all in range for a real date? -/
def isValidIsoDate (s : Str) : Bool :=
  match splitOnChar '-' s with
  | [ys, ms, ds] =>
    ys.length = 4 && ys.all isDigitChar &&
    (ms.length = 1 || ms.length = 2) && ms.all isDigitChar &&
    (ds.length = 1 || ds.length = 2) && ds.all isDigitChar &&
    1 ≤ digitsToNat ys && 1 ≤ digitsToNat ms && digitsToNat ms ≤ 12 &&
    1 ≤ digitsToNat ds &&
    digitsToNat ds ≤ daysInMonth (digitsToNat ys) (digitsToNat ms)
  | _ => false

/-- `_parse_iso_date(value).toordinal()`: the ordinal of the parsed date,
falling back to `date.min` (ordinal 1) on `ValueError`. -/
def parseIsoOrd (s : Str) : Nat :=
  if isValidIsoDate s then
    match splitOnChar '-' s with
    | [ys, ms, ds] => dateOrdinal (digitsToNat ys) (digitsToNat ms) (digitsToNat ds)
    | _ => 1
  else 1

/-- The `sort_key` closure of `load_all_projects`.  A truthy date value
that is neither a string, `None` nor a date object reaches
`d.toordinal()` and raises `AttributeError`; falsy such values take the
`else 0` branch. -/
def sortKey (p : Project) : Except PyErr (Int × Int) :=
  let pinned : Int := if pyTruthyV p.pinned then 1 else 0
  match p.creation_date with
  | .prim (.str s) => .ok (-pinned, -(parseIsoOrd s : Int))
  | .prim .null => .ok (-pinned, -1)
  | .prim (.date y m d) => .ok (-pinned, -(dateOrdinal y m d : Int))
  | other => if pyTruthyV other then .error .attributeError else .ok (-pinned, 0)

/-- Non-strict lexicographic order on sort keys. -/
def keyLe (a b : Int × Int) : Bool := a.1 < b.1 || (a.1 = b.1 && a.2 ≤ b.2)

/-- Stable insertion: place after every element with key ≤ the new key. -/
def insertSorted (x : α × (Int × Int)) : List (α × (Int × Int)) → List (α × (Int × Int))
  | [] => [x]
  | y :: ys => if keyLe y.2 x.2 then y :: insertSorted x ys else x :: y :: ys

/-- Stable ascending sort by key, modelling Python's stable `list.sort`. -/
def stableSortByKey (l : List (α × (Int × Int))) : List (α × (Int × Int)) :=
  l.foldl (fun acc x => insertSorted x acc) []

/-- Sequence an exception-raising function over a list, propagating the
first exception, as a Python `for` loop does. -/
def exceptMapM (f : α → Except ε β) : List α → Except ε (List β)
  | [] => .ok []
  | a :: l => do
    let b ← f a
    let bs ← exceptMapM f l
    pure (b :: bs)

/-- `load_all_projects`: load every file in the directory, keep truthy
results, filter drafts unless requested, sort by
`(-pinned, -ordinal)` ascending with Python's stable sort. -/
def loadAllProjects (fs : FS) (includeDrafts : Bool) : Except PyErr (List Project) := do
  let loaded ← exceptMapM (fun e => loadProject fs e.1) fs
  let projects := (loaded.filterMap id).filter
    (fun p => includeDrafts || !pyTruthyV p.is_draft)
  let keyed ← exceptMapM (fun p => do
    let k ← sortKey p
    pure (p, k)) projects
  pure ((stableSortByKey keyed).map Prod.fst)

/-! ## The save endpoint (routers/admin.py `save_project_endpoint`)

The request body is modelled as a typed record of the JSON fields the
endpoint reads.  Asset-orphan cleanup and HLS-version cleanup after a
successful save are remote-storage side effects that never influence the
response or the projects directory, and are elided here. -/

/-- Python `str.strip()` (no argument): strip whitespace at both ends. -/
def pyStrip (s : Str) : Str :=
  ((s.dropWhile isPySpace).reverse.dropWhile isPySpace).reverse

/-- The JSON payload of a save-project request (`None`/absent fields as
stated per field). -/
structure SaveReq where
  slug : Str
  original_slug : Option Str
  base_revision : Option Str
  force : Bool
  name : Option YVal
  date : YVal
  pinned : YVal
  draft : YVal
  youtube : Option Str
  video : List (Str × YScalar)
  markdown : Str
deriving DecidableEq, Repr

/-- Normalize one string/url video field (`_build_project_frontmatter`). -/
def normVideoUrl (video : List (Str × YScalar)) (k : String) : Option (Str × YScalar) :=
  match alLookup k.data video with
  | some (.str s) =>
    let t := pyStrip s
    if t.isEmpty then none else some (k.data, .str t)
  | _ => none

/-- Normalize one numeric video field.  Booleans are skipped; positive
integers pass through; digit strings are parsed (float forms are outside
the modelled fragment of `int(float(...))` and fall out). -/
def normVideoNum (video : List (Str × YScalar)) (k : String) : Option (Str × YScalar) :=
  match alLookup k.data video with
  | some (.int n) => if n > 0 then some (k.data, .int n) else none
  | some (.str s) =>
    let t := pyStrip s
    if !t.isEmpty && t.all isDigitChar && digitsToNat t > 0 then
      some (k.data, .int (digitsToNat t))
    else none
  | _ => none

/-- `_build_project_frontmatter`: the frontmatter mapping and the
normalized video payload. -/
def buildProjectFrontmatter (req : SaveReq) (slug : Str) :
    List (Str × YVal) × List (Str × YScalar) :=
  let nv :=
    (["hls", "thumbnail", "spriteSheet"].filterMap (normVideoUrl req.video)) ++
    (["frames", "columns", "rows", "frame_width", "frame_height", "fps"].filterMap
      (normVideoNum req.video))
  let fm :=
    [("name".data, req.name.getD (.prim (.str slug))),
     ("slug".data, YVal.prim (.str slug)),
     ("date".data, req.date),
     ("pinned".data, req.pinned),
     ("draft".data, req.draft)] ++
    (if nv.isEmpty then [] else [("video".data, YVal.map nv)]) ++
    (match req.youtube with
     | some y => if y.isEmpty then [] else [("youtube".data, YVal.prim (.str y))]
     | none => [])
  (fm, nv)

/-- The responses `save_project_endpoint` can produce. -/
inductive SaveResp where
  | badRequest (msg : String)
  | notFound
  | conflict (server_revision : Str) (server_markdown : Str) (your_markdown : Str)
  | success (slug : Str) (revision : Option Str)
deriving DecidableEq, Repr

/-- `save_project_endpoint`: input validation, duplicate-slug guard,
optimistic-revision conflict check (skipped under `force`), old-project
lookup, write, rename-delete, and the fresh revision in the response. -/
def saveProjectEndpoint (fs : FS) (req : SaveReq) :
    Except PyErr (SaveResp × FS) := do
  let slugRaw := req.slug
  let origRaw := (match req.original_slug with
    | some o => if o.isEmpty then slugRaw else o
    | none => slugRaw)
  if slugRaw.isEmpty then
    return (.badRequest "Slug is required", fs)
  let slug := pyStrip slugRaw
  let origSlug := pyStrip origRaw
  if ¬ validSlug slug then
    return (.badRequest "Invalid slug format", fs)
  if ¬ validSlug origSlug then
    return (.badRequest "Invalid original slug format", fs)
  if origSlug ≠ slug then
    if (← loadProject fs slug).isSome then
      return (.badRequest "Project with this slug already exists", fs)
  let baseTruthy := match req.base_revision with
    | some r => !r.isEmpty
    | none => false
  if baseTruthy && !req.force then
    match contentRevision fs origSlug with
    | some cur =>
      if req.base_revision ≠ some cur then
        let currentProject ← loadProject fs origSlug
        let serverMd := match currentProject with
          | some p => p.markdown_content
          | none => []
        return (.conflict cur serverMd req.markdown, fs)
    | none => pure ()
  let oldProject ← loadProject fs origSlug
  if oldProject.isNone then
    return (.notFound, fs)
  let fmv := buildProjectFrontmatter req slug
  let fs1 ← saveProject fs slug fmv.1 req.markdown
  let fs2 ← (if origSlug ≠ slug then do
      let r ← deleteProject fs1 origSlug
      pure r.1
    else pure fs1)
  return (.success slug (contentRevision fs2 slug), fs2)

/-! ## In-memory session stores (routers/admin_video_state.py)

`TempVideoStore` and `HlsSessionStore` are the same mutex-guarded
dictionary pattern instantiated at two state dataclasses; the store
operations are modelled once over an association list (the mutex only
serializes the dictionary operation and adds no observable behaviour).
The admin router holds a structurally identical private copy of the two
classes whose temp state omits the two video-dimension fields. -/

structure TempVideoState where
  path : Str
  frames : List Str
  frames_complete : Bool
  is_remote : Bool
  video_width : Option Int
  video_height : Option Int
  timestamp : Nat
deriving DecidableEq, Repr

structure HlsSessionState where
  status : Str
  stage : Str
  progress : Rat
  hls_url : Option Str
  temp_id : Option Str
  slug : Str
  error : Option Str
  timestamp : Nat
deriving DecidableEq, Repr

/-- `create`: unconditional dictionary assignment. -/
def storeCreate (items : List (Str × α)) (id : Str) (v : α) : List (Str × α) :=
  alSet id v items

/-- `get`: `None` for an absent id. -/
def storeGet (items : List (Str × α)) (id : Str) : Option α :=
  alLookup id items

/-- Apply an update to the first binding of a key. -/
def alModify (k : Str) (f : α → α) : List (Str × α) → List (Str × α)
  | [] => []
  | e :: rest => if e.1 = k then (e.1, f e.2) :: rest else e :: alModify k f rest

/-- `update`: `False` (store untouched) on an absent id, otherwise apply
the keyword assignments and return `True`. -/
def storeUpdate (items : List (Str × α)) (id : Str) (f : α → α) :
    List (Str × α) × Bool :=
  match alLookup id items with
  | none => (items, false)
  | some _ => (alModify id f items, true)

/-- `delete`: `pop(id, None) is not None`. -/
def storeDelete (items : List (Str × α)) (id : Str) : List (Str × α) × Bool :=
  match alLookup id items with
  | none => (items, false)
  | some _ => (alRemove id items, true)

/-- `pop`: remove and return the state if present. -/
def storePop (items : List (Str × α)) (id : Str) :
    List (Str × α) × Option α :=
  match alLookup id items with
  | none => (items, none)
  | some v => (alRemove id items, some v)

/-- The fields of the session dict the poll loop reads. -/
structure HlsView where
  status : Str
  hls_url : Option Str
  error : Option Str
deriving DecidableEq, Repr

/-- How the poll can leave the loop. -/
inductive PollOutcome where
  | completed (url : Option Str)
  | gone
  | errored (err : Option Str)
  | timedOut
deriving DecidableEq, Repr

/-- The poll loop, fuel-structured on the remaining iterations
(`max_wait - waited`). -/
def pollHlsGo (trace : Nat → Option HlsView) : Nat → Nat → PollOutcome
  | _, 0 => .timedOut
  | waited, fuel + 1 =>
    match trace waited with
    | none => .gone
    | some s =>
      if s.status = "complete".data then .completed s.hls_url
      else if s.status = "error".data then .errored s.error
      else pollHlsGo trace (waited + 1) fuel

/-- The bounded poll: at most 300 one-second iterations. -/
def pollHls (trace : Nat → Option HlsView) : PollOutcome :=
  pollHlsGo trace 0 300

/-! ## The HLS resolution ladder (utils/video.py)

Python's float arithmetic on the aspect ratios is modelled with exact
rationals (`ℚ`); the properties proved about the ladder — evenness,
height bounds, non-emptiness — are independent of which candidate wins a
near-tie, which is the only place the float/rational distinction could
surface.  `round()` is Python's round-half-to-even. -/

/-- Exact rational multiplication, written through `Rat.divInt` so the
kernel can evaluate it (the `Field ℚ` instance operations do not whnf). -/
def qMul (a b : ℚ) : ℚ := Rat.divInt (a.num * b.num) ((a.den : ℤ) * (b.den : ℤ))

/-- Exact rational subtraction (kernel-evaluable). -/
def qSub (a b : ℚ) : ℚ :=
  Rat.divInt (a.num * (b.den : ℤ) - b.num * (a.den : ℤ)) ((a.den : ℤ) * (b.den : ℤ))

/-- Exact rational division (kernel-evaluable). -/
def qDiv (a b : ℚ) : ℚ := Rat.divInt (a.num * (b.den : ℤ)) ((a.den : ℤ) * b.num)

/-- Exact rational absolute value (kernel-evaluable). -/
def qAbs (q : ℚ) : ℚ := if q < 0 then Rat.divInt (-q.num) (q.den : ℤ) else q

/-- An integer as a rational (kernel-evaluable). -/
def qOfInt (n : ℤ) : ℚ := Rat.divInt n 1

/-- One half. -/
def qHalf : ℚ := Rat.divInt 1 2

/-- Python `round(x)` for one argument: nearest integer, ties to even. -/
def roundHalfEven (q : ℚ) : ℤ :=
  let f := Rat.floor q
  let frac := qSub q (qOfInt f)
  if frac < qHalf then f
  else if qHalf < frac then f + 1
  else if f % 2 = 0 then f else f + 1

/-- `_round_even`: round, then nudge odd results toward the value, floor
at 2. -/
def roundEven (value : ℚ) : ℤ :=
  let rounded := roundHalfEven value
  let adjusted :=
    if rounded % 2 ≠ 0 then
      (if qOfInt rounded ≤ value then rounded + 1 else rounded - 1)
    else rounded
  max 2 adjusted

/-- `_floor_even`: drop odd values by one, floor at 2. -/
def floorEven (value : ℤ) : ℤ :=
  max 2 (if value % 2 ≠ 0 then value - 1 else value)

/-- Strict lexicographic comparison of `(aspect drift, height delta,
negated height)` scores. -/
def scoreLt (a b : ℚ × ℤ × ℤ) : Bool :=
  a.1 < b.1 || (a.1 = b.1 && (a.2.1 < b.2.1 || (a.2.1 = b.2.1 && a.2.2 < b.2.2)))

/-- One iteration of the `_pick_stable_variant_dimensions` search loop:
the accumulator carries `seen_heights` and the best-so-far scored pair. -/
def pickStep (srcAspect : ℚ) (safeW capped : ℤ)
    (acc : List ℤ × Option ((ℚ × ℤ × ℤ) × ℤ × ℤ)) (raw : ℤ) :
    List ℤ × Option ((ℚ × ℤ × ℤ) × ℤ × ℤ) :=
  let h := floorEven raw
  if h < 2 || acc.1.contains h then acc
  else
    let seen := h :: acc.1
    let w0 := roundEven (qMul (qOfInt h) srcAspect)
    let w := min w0 (floorEven safeW)
    if w < 2 then (seen, acc.2)
    else
      let drift := qAbs (qSub (qDiv (qOfInt w) (qOfInt h)) srcAspect)
      let hd := |h - capped|
      let score := (drift, hd, -h)
      match acc.2 with
      | none => (seen, some (score, w, h))
      | some best =>
        if scoreLt score best.1 then (seen, some (score, w, h))
        else (seen, best)

/-- The search loop of `_pick_stable_variant_dimensions`: fold `pickStep`
over `range(start, end + 1)` and return the best-so-far pair. -/
def pickSearch (srcAspect : ℚ) (safeW safeH capped : ℤ) :
    Option ((ℚ × ℤ × ℤ) × ℤ × ℤ) :=
  let start := max 2 (capped - 12)
  let stop := min safeH (capped + 12)
  let cands := (List.range (stop + 1 - start).toNat).map
    (fun i => start + (i : ℤ))
  (cands.foldl (pickStep srcAspect safeW capped) ([], none)).2

/-- `_pick_stable_variant_dimensions` with the source's search radius 12:
search even heights near the target for the pair minimizing aspect
drift. -/
def pickStableVariantDimensions (sw sh th : ℤ) : ℤ × ℤ :=
  let safeW := max 2 sw
  let safeH := max 2 sh
  let srcAspect : ℚ := qDiv (qOfInt safeW) (qOfInt safeH)
  let capped := floorEven (min (max 2 th) safeH)
  match pickSearch srcAspect safeW safeH capped with
  | some best => (best.2.1, best.2.2)
  | none =>
    let fh := floorEven capped
    let fw := min (roundEven (qMul (qOfInt fh) srcAspect)) (floorEven safeW)
    (max 2 fw, max 2 fh)

/-- `HLS_HEIGHT_BITRATE_LADDER`. -/
def hlsLadder : List (ℤ × ℤ) :=
  [(2160, 12000), (1440, 8000), (1080, 5000), (720, 2500),
   (480, 1200), (360, 800), (240, 400)]

/-- One iteration of the `_build_hls_resolutions` ladder walk: the
accumulator carries `seen_dimensions` and the renditions built so far. -/
def ladderStep (sw sh : ℤ) (acc : List (ℤ × ℤ) × List (ℤ × ℤ × ℤ))
    (tb : ℤ × ℤ) : List (ℤ × ℤ) × List (ℤ × ℤ × ℤ) :=
  if tb.1 ≥ 720 && sh < tb.1 then acc
  else
    let wh := pickStableVariantDimensions sw sh tb.1
    if acc.1.contains wh then acc
    else (wh :: acc.1, acc.2 ++ [(wh.1, wh.2, tb.2)])

/-- `_build_hls_resolutions`: walk the ladder (skipping 720p-and-above
tiers the source cannot support), deduplicate dimensions, and fall back
to one floor-evened rendition for degenerate sources. -/
def buildHlsResolutions (sw sh : ℤ) : List (ℤ × ℤ × ℤ) :=
  let res := hlsLadder.foldl (ladderStep sw sh) ([], [])
  if res.2.isEmpty then [(floorEven sw, floorEven sh, 800)] else res.2

/-! ## Statement-support definitions -/

/-- An HLS session observed in a non-terminal state at poll instant `k`. -/
def isProcessingAt (trace : Nat → Option HlsView) (k : Nat) : Prop :=
  ∃ s, trace k = some s ∧ s.status ≠ "complete".data ∧ s.status ≠ "error".data

/-- A sample temp-video entry for concrete witnesses. -/
def tempStateEx : TempVideoState :=
  { path := "/tmp/upload1.mp4".data, frames := [], frames_complete := false,
    is_remote := false, video_width := none, video_height := none, timestamp := 0 }

/-- A sample HLS-session entry for concrete witnesses. -/
def hlsStateEx : HlsSessionState :=
  { status := "processing".data, stage := "Starting HLS encoding...".data,
    progress := 0, hls_url := none, temp_id := none, slug := [],
    error := none, timestamp := 0 }

/-- Three project files exercising the gallery sort: B is unpinned and
newest, A and C are pinned; the directory lists B first so the sort does
the reordering. -/
def c5fs : FS :=
  [(("proj-b").data,
    ("---\nname: b\npinned: false\ndate: '2025-01-01'\n---\n\nbody b").data),
   (("proj-a").data,
    ("---\nname: a\npinned: true\ndate: '2024-01-01'\n---\n\nbody a").data),
   (("proj-c").data,
    ("---\nname: c\npinned: true\ndate: '2023-01-01'\n---\n\nbody c").data)]

/-- The gallery result for `c5fs`. -/
def c5res : List Project := ((loadAllProjects c5fs false).toOption).getD []

/-- A directory with a YAML-integer `date`, which makes the gallery sort
key reach `d.toordinal()` on an `int` and raise `AttributeError`. -/
def c5badfs : FS :=
  [(("bad").data, ("---\nname: x\ndate: 5\n---\n\nbody").data)]

/-- A project with a missing creation date, for the sort-key witness. -/
def c5projEx : Project :=
  { slug := ("q").data, name := .prim (.str ("q").data),
    creation_date := .prim .null, is_draft := .prim (.bool false),
    pinned := .prim (.bool false), youtube_link := .prim .null,
    markdown_content := [], revision := none,
    video_link := .prim .null, thumbnail_link := .prim .null,
    sprite_sheet_link := .prim .null, frames := .prim .null,
    columns := .prim .null, rows := .prim .null,
    frame_width := .prim .null, frame_height := .prim .null,
    fps := .prim .null, video_width := .prim .null,
    video_height := .prim .null }

/-- The initially stored project file for the conflict-protocol witness. -/
def c2content1 : Str := ("---\nname: x\n---\n\nold body").data

/-- The conflict-protocol witness directory. -/
def c2fs0 : FS := [(("p").data, c2content1)]

/-- First save request: presents the stored revision, changes the body. -/
def c2req1 : SaveReq :=
  { slug := ("p").data, original_slug := none,
    base_revision := some (revStr c2content1), force := false,
    name := some (.prim (.str ("x2").data)), date := .prim .null,
    pinned := .prim (.bool false), draft := .prim (.bool false),
    youtube := none, video := [], markdown := ("new body").data }

/-- Second save request: still presents the now-stale revision. -/
def c2req2 : SaveReq :=
  { c2req1 with markdown := ("other body").data }

/-- Third save request: the stale revision plus the force flag. -/
def c2req3 : SaveReq :=
  { c2req2 with force := true }

/-- The file content the first save writes. -/
def c2c2 : Str :=
  serializeFrontmatter (buildProjectFrontmatter c2req1 (("p").data)).1
    c2req1.markdown

/-- The directory after the first save. -/
def c2fs1 : FS := alSet (("p").data) c2c2 c2fs0

/-- The file content the forced save writes. -/
def c2c3 : Str :=
  serializeFrontmatter (buildProjectFrontmatter c2req3 (("p").data)).1
    c2req3.markdown

/-- The project record loaded from the initial directory. -/
def c2p0 : Project :=
  match loadProject c2fs0 (("p").data) with
  | .ok (some p) => p
  | _ => c5projEx

/-- The project record loaded after the first save. -/
def c2p1 : Project :=
  match loadProject c2fs1 (("p").data) with
  | .ok (some p) => p
  | _ => c5projEx

/-- Concrete round-trip fixture frontmatter for the C1 witness. -/
def c1fm : List (Str × YVal) :=
  [(("name").data, .prim (.str ("My Project").data)),
   (("date").data, .prim (.str ("2024-01-02").data)),
   (("pinned").data, .prim (.bool true)),
   (("video").data, .map
     [(("hls").data, .str ("https://cdn.example.com/videos/w1/9/master.m3u8").data),
      (("frames").data, .int 120)])]

/-- Concrete round-trip fixture body for the C1 witness. -/
def c1md : Str := ("Hello, **world**.").data

/-! # Theorems -/

/-- FIPS 180-2 test vector for the embedded SHA-256. -/
theorem sha256_test_vector : sha256hex (utf8Encode "abc".data) =
    "ba7816bf8f01cfea414140de5dae2223b00361a396177a9cb410ff61f20015ad".data := by
  decide

/-- C10: on both in-memory session stores, every operation on an absent id
signals absence without modifying the store — `get` returns `None`, and
`update`/`delete` return `False` leaving every stored entry unchanged —
while `update` on a present id returns `True`. -/
theorem store_absent_id_noop
    (temps : List (Str × TempVideoState)) (hls : List (Str × HlsSessionState))
    (id : Str) (ft : TempVideoState → TempVideoState)
    (fh : HlsSessionState → HlsSessionState) :
    (alLookup id temps = none →
      storeGet temps id = none ∧
      storeUpdate temps id ft = (temps, false) ∧
      storeDelete temps id = (temps, false)) ∧
    (alLookup id hls = none →
      storeGet hls id = none ∧
      storeUpdate hls id fh = (hls, false) ∧
      storeDelete hls id = (hls, false)) ∧
    (∀ v, alLookup id temps = some v → (storeUpdate temps id ft).2 = true) ∧
    (∀ v, alLookup id hls = some v → (storeUpdate hls id fh).2 = true) := by
  refine ⟨fun h => ?_, fun h => ?_, fun v h => ?_, fun v h => ?_⟩ <;>
    simp [storeGet, storeUpdate, storeDelete, h]

/-- Witness for C10 at concrete stores: id `"b"` is absent from both, and
`update` succeeds on the present id `"a"`. -/
theorem store_absent_id_noop_witness :
    (storeGet [(("a").data, tempStateEx)] ("b").data = none ∧
      storeUpdate [(("a").data, tempStateEx)] ("b").data id = ([(("a").data, tempStateEx)], false) ∧
      storeDelete [(("a").data, tempStateEx)] ("b").data = ([(("a").data, tempStateEx)], false)) ∧
    (storeGet [(("a").data, hlsStateEx)] ("b").data = none ∧
      storeUpdate [(("a").data, hlsStateEx)] ("b").data id = ([(("a").data, hlsStateEx)], false) ∧
      storeDelete [(("a").data, hlsStateEx)] ("b").data = ([(("a").data, hlsStateEx)], false)) ∧
    (storeUpdate [(("a").data, tempStateEx)] ("a").data id).2 = true ∧
    (storeUpdate [(("a").data, hlsStateEx)] ("a").data id).2 = true := by
  obtain ⟨h1, h2, -, -⟩ :=
    store_absent_id_noop [(("a").data, tempStateEx)] [(("a").data, hlsStateEx)]
      ("b").data id id
  obtain ⟨-, -, h3, h4⟩ :=
    store_absent_id_noop [(("a").data, tempStateEx)] [(("a").data, hlsStateEx)]
      ("a").data id id
  exact ⟨h1 (by decide), h2 (by decide),
    h3 tempStateEx (by decide), h4 hlsStateEx (by decide)⟩

/-- The poll loop, started at `waited` with the matching fuel: times out
when every polled instant is non-terminal, and surfaces the first
terminal observation. -/
theorem pollHlsGo_spec (trace : Nat → Option HlsView) :
    ∀ fuel w,
      ((∀ k, k < fuel → isProcessingAt trace (w + k)) →
        pollHlsGo trace w fuel = .timedOut) ∧
      (∀ k s, k < fuel → (∀ j, j < k → isProcessingAt trace (w + j)) →
        trace (w + k) = some s →
        (s.status = "complete".data → pollHlsGo trace w fuel = .completed s.hls_url) ∧
        (s.status ≠ "complete".data → s.status = "error".data →
          pollHlsGo trace w fuel = .errored s.error)) := by
  intro fuel
  induction fuel with
  | zero =>
    intro w
    exact ⟨fun _ => rfl, fun k s hk => absurd hk (Nat.not_lt_zero k)⟩
  | succ fuel ih =>
    intro w
    constructor
    · intro h
      obtain ⟨s0, hs0, hnc, hne⟩ := h 0 (Nat.succ_pos fuel)
      rw [Nat.add_zero] at hs0
      show (match trace w with
        | none => PollOutcome.gone
        | some s =>
          if s.status = ("complete").data then PollOutcome.completed s.hls_url
          else if s.status = ("error").data then PollOutcome.errored s.error
          else pollHlsGo trace (w + 1) fuel) = PollOutcome.timedOut
      rw [hs0]
      simp only [if_neg hnc, if_neg hne]
      exact (ih (w + 1)).1 (fun k hk => by
        have h' := h (k + 1) (Nat.succ_lt_succ hk)
        have : w + (k + 1) = w + 1 + k := by omega
        rwa [this] at h')
    · intro k s hk hbefore hs
      match k with
      | 0 =>
        rw [Nat.add_zero] at hs
        constructor
        · intro hc
          show (match trace w with
            | none => PollOutcome.gone
            | some s =>
              if s.status = ("complete").data then PollOutcome.completed s.hls_url
              else if s.status = ("error").data then PollOutcome.errored s.error
              else pollHlsGo trace (w + 1) fuel) = PollOutcome.completed s.hls_url
          rw [hs]
          simp only [if_pos hc]
        · intro hnc he
          show (match trace w with
            | none => PollOutcome.gone
            | some s =>
              if s.status = ("complete").data then PollOutcome.completed s.hls_url
              else if s.status = ("error").data then PollOutcome.errored s.error
              else pollHlsGo trace (w + 1) fuel) = PollOutcome.errored s.error
          rw [hs]
          simp only [if_neg hnc, if_pos he]
      | k' + 1 =>
        obtain ⟨s0, hs0, hnc0, hne0⟩ := hbefore 0 (Nat.succ_pos k')
        rw [Nat.add_zero] at hs0
        have hshift : w + (k' + 1) = w + 1 + k' := by omega
        rw [hshift] at hs
        have hres := ((ih (w + 1)).2 k' s (Nat.lt_of_succ_lt_succ hk)
          (fun j hj => by
            have h' := hbefore (j + 1) (Nat.succ_lt_succ hj)
            have : w + (j + 1) = w + 1 + j := by omega
            rwa [this] at h') hs)
        constructor
        · intro hc
          show (match trace w with
            | none => PollOutcome.gone
            | some s =>
              if s.status = ("complete").data then PollOutcome.completed s.hls_url
              else if s.status = ("error").data then PollOutcome.errored s.error
              else pollHlsGo trace (w + 1) fuel) = PollOutcome.completed s.hls_url
          rw [hs0]
          simp only [if_neg hnc0, if_neg hne0]
          exact hres.1 hc
        · intro hnc he
          show (match trace w with
            | none => PollOutcome.gone
            | some s =>
              if s.status = ("complete").data then PollOutcome.completed s.hls_url
              else if s.status = ("error").data then PollOutcome.errored s.error
              else pollHlsGo trace (w + 1) fuel) = PollOutcome.errored s.error
          rw [hs0]
          simp only [if_neg hnc0, if_neg hne0]
          exact hres.2 hnc he

/-- C9: the sprite endpoint's HLS wait polls the session at one-second
intervals for at most 300 iterations — it returns the session's HLS URL
at the first `complete` observation, fails with the session's error at
the first `error` observation, and fails with the timed-out error when
five minutes pass with no terminal status. -/
theorem sprite_poll_terminal (trace : Nat → Option HlsView) :
    ((∀ k, k < 300 → isProcessingAt trace k) → pollHls trace = .timedOut) ∧
    (∀ k s, k < 300 → (∀ j, j < k → isProcessingAt trace j) →
      trace k = some s →
      (s.status = "complete".data → pollHls trace = .completed s.hls_url) ∧
      (s.status ≠ "complete".data → s.status = "error".data →
        pollHls trace = .errored s.error)) := by
  have h := pollHlsGo_spec trace 300 0
  constructor
  · intro hall
    exact h.1 (fun k hk => by simpa using hall k hk)
  · intro k s hk hbefore hs
    have := h.2 k s hk (fun j hj => by simpa using hbefore j hj) (by simpa using hs)
    exact this

/-- Witness for C9 at three concrete traces: always-processing times out;
completion at instant 2 returns that session's URL; an error at instant 1
surfaces the session's error text. -/
theorem sprite_poll_terminal_witness :
    pollHls (fun _ => some { status := ("processing").data, hls_url := none, error := none }) =
      .timedOut ∧
    pollHls (fun k => some (if k < 2 then
        { status := ("processing").data, hls_url := none, error := none }
      else
        { status := ("complete").data, hls_url := some ("u").data, error := none })) =
      .completed (some ("u").data) ∧
    pollHls (fun k => some (if k < 1 then
        { status := ("processing").data, hls_url := none, error := none }
      else
        { status := ("error").data, hls_url := none, error := some ("boom").data })) =
      .errored (some ("boom").data) := by
  refine ⟨?_, ?_, ?_⟩
  · exact (sprite_poll_terminal _).1
      (fun k _ => ⟨_, rfl, by decide, by decide⟩)
  · exact ((sprite_poll_terminal _).2 2
      { status := ("complete").data, hls_url := some ("u").data, error := none }
      (by decide)
      (fun j hj => ⟨{ status := ("processing").data, hls_url := none, error := none },
        by simp [show j < 2 from hj], by decide, by decide⟩)
      (by simp)).1 (by decide)
  · exact ((sprite_poll_terminal _).2 1
      { status := ("error").data, hls_url := none, error := some ("boom").data }
      (by decide)
      (fun j hj => ⟨{ status := ("processing").data, hls_url := none, error := none },
        by simp [show j < 1 from hj], by decide, by decide⟩)
      (by simp)).2 (by decide) (by decide)

/-- C3 counterexample: `validate_slug` accepts `"abc\n"`, which is outside
the pattern's language — Python's `$` matches before a trailing newline —
so the store proceeds to filesystem access for it: `load_project` reads
the stored file, `save_project` writes it, `delete_project` removes it. -/
theorem slug_validation_counterexample :
    slugLang (("abc\n").data) = false ∧
    validSlug (("abc\n").data) = true ∧
    saveProject [] (("abc\n").data) [] (("body").data) =
      .ok [((("abc\n").data), serializeFrontmatter [] (("body").data))] ∧
    loadProject [((("abc\n").data), ("---\na: [1\n---\n\nbody").data)]
      (("abc\n").data) ≠ .ok none ∧
    deleteProject [((("abc\n").data), ("x").data)] (("abc\n").data) =
      .ok ([], true) :=
  ⟨by decide, by decide, by decide, by decide, by decide⟩

/-- C3 (amended): every slug `validate_slug` rejects is refused by every
store operation before any filesystem access — the result is the same for
every directory state `fs`: `load_project` returns not-found, and
`save_project`/`delete_project` raise `ValueError`.  `validate_slug`
rejects everything outside the pattern's language except a language slug
with one trailing newline (see the counterexample). -/
theorem invalid_slug_rejected (fs : FS) (s : Str) (fm : List (Str × YVal))
    (md : Str) (h : validSlug s = false) :
    loadProject fs s = .ok none ∧
    saveProject fs s fm md = .error (.valueError (("Invalid slug: ").data ++ s)) ∧
    deleteProject fs s = .error (.valueError (("Invalid slug: ").data ++ s)) := by
  unfold loadProject saveProject deleteProject
  simp [h]

/-- Witness for C3 at the four slugs the claim names, over a nonempty
directory. -/
theorem invalid_slug_rejected_witness :
    (validSlug ("../etc/passwd").data = false ∧
      loadProject [(("ok").data, ("x").data)] ("../etc/passwd").data = .ok none) ∧
    (validSlug ("Foo").data = false ∧
      saveProject [(("ok").data, ("x").data)] ("Foo").data [] [] =
        .error (.valueError (("Invalid slug: ").data ++ ("Foo").data))) ∧
    (validSlug ([] : Str) = false ∧
      deleteProject [(("ok").data, ("x").data)] [] =
        .error (.valueError (("Invalid slug: ").data ++ []))) ∧
    (validSlug ("-abc").data = false ∧
      loadProject [(("ok").data, ("x").data)] ("-abc").data = .ok none) := by
  refine ⟨⟨by decide, ?_⟩, ⟨by decide, ?_⟩, ⟨by decide, ?_⟩, ⟨by decide, ?_⟩⟩
  · exact (invalid_slug_rejected _ _ [] [] (by decide)).1
  · exact (invalid_slug_rejected _ _ [] [] (by decide)).2.1
  · exact (invalid_slug_rejected _ _ [] [] (by decide)).2.2
  · exact (invalid_slug_rejected _ _ [] [] (by decide)).1

/-! ## C6: the HLS ladder -/

/-- A fold preserves any invariant its step preserves. -/
theorem foldl_inv {P : β → Prop} (f : β → α → β)
    (hstep : ∀ acc x, P acc → P (f acc x)) :
    ∀ (l : List α) (acc : β), P acc → P (l.foldl f acc)
  | [], _, h => h
  | x :: l, acc, h => foldl_inv f hstep l (f acc x) (hstep acc x h)

/-- The odd-adjustment branch produces an even integer. -/
theorem evenBranch_emod (v : ℤ) : (if v % 2 ≠ 0 then v - 1 else v) % 2 = 0 := by
  split <;> omega

/-- `max 2 x` is even when `x` is. -/
theorem max2_emod (x : ℤ) (h : x % 2 = 0) : max 2 x % 2 = 0 := by
  rcases max_choice 2 x with hm | hm <;> rw [hm]
  · decide
  · exact h

/-- `_floor_even` always returns an even value. -/
theorem floorEven_emod (v : ℤ) : floorEven v % 2 = 0 :=
  max2_emod _ (evenBranch_emod v)

/-- `_round_even` always returns an even value. -/
theorem roundEven_emod (q : ℚ) : roundEven q % 2 = 0 := by
  unfold roundEven
  dsimp only
  apply max2_emod
  split
  · split <;> omega
  · omega

/-- `min` of two evens is even. -/
theorem min_emod (a b : ℤ) (ha : a % 2 = 0) (hb : b % 2 = 0) :
    min a b % 2 = 0 := by
  rcases min_choice a b with hm | hm <;> rw [hm] <;> assumption

/-- `pickStep` keeps the best-so-far pair even in both components. -/
theorem pickStep_inv (ra : ℚ) (sw capped : ℤ)
    (acc : List ℤ × Option ((ℚ × ℤ × ℤ) × ℤ × ℤ)) (raw : ℤ)
    (hP : ∀ s w h, acc.2 = some (s, w, h) → w % 2 = 0 ∧ h % 2 = 0) :
    ∀ s w h, (pickStep ra sw capped acc raw).2 = some (s, w, h) →
      w % 2 = 0 ∧ h % 2 = 0 := by
  intro s w h he
  unfold pickStep at he
  dsimp only at he
  split at he
  · exact hP s w h he
  · split at he
    · exact hP s w h he
    · rcases hacc : acc.2 with - | best
      · rw [hacc] at he
        simp only [Option.some.injEq, Prod.mk.injEq] at he
        obtain ⟨-, rfl, rfl⟩ := he
        exact ⟨min_emod _ _ (roundEven_emod _) (floorEven_emod _), floorEven_emod _⟩
      · rw [hacc] at he
        dsimp only at he
        split at he
        · simp only [Option.some.injEq, Prod.mk.injEq] at he
          obtain ⟨-, rfl, rfl⟩ := he
          exact ⟨min_emod _ _ (roundEven_emod _) (floorEven_emod _), floorEven_emod _⟩
        · exact hP s w h (by rw [hacc]; exact he)

/-- The search fold only ever selects even pairs. -/
theorem pickSearch_even (ra : ℚ) (sw sh capped : ℤ) :
    ∀ s w h, pickSearch ra sw sh capped = some (s, w, h) →
      w % 2 = 0 ∧ h % 2 = 0 := by
  unfold pickSearch
  dsimp only
  intro s w h
  exact foldl_inv
    (P := fun acc : List ℤ × Option ((ℚ × ℤ × ℤ) × ℤ × ℤ) =>
      ∀ s w h, acc.2 = some (s, w, h) → w % 2 = 0 ∧ h % 2 = 0)
    (pickStep ra sw capped) (fun acc x hP => pickStep_inv ra sw capped acc x hP)
    _ ([], none) (by intro s w h h'; cases h') s w h

/-- `_pick_stable_variant_dimensions` returns even dimensions. -/
theorem pick_even (sw sh th : ℤ) :
    (pickStableVariantDimensions sw sh th).1 % 2 = 0 ∧
    (pickStableVariantDimensions sw sh th).2 % 2 = 0 := by
  unfold pickStableVariantDimensions
  dsimp only
  split
  · rename_i best heq
    obtain ⟨s, w, h⟩ := best
    have := pickSearch_even _ _ _ _ s w h heq
    exact this
  · exact ⟨max2_emod _ (min_emod _ _ (roundEven_emod _) (floorEven_emod _)),
      max2_emod _ (floorEven_emod _)⟩

/-- `ladderStep` keeps every accumulated rendition even in width and
height. -/
theorem ladderStep_inv (sw sh : ℤ) (acc : List (ℤ × ℤ) × List (ℤ × ℤ × ℤ))
    (tb : ℤ × ℤ)
    (hP : ∀ r ∈ acc.2, r.1 % 2 = 0 ∧ r.2.1 % 2 = 0) :
    ∀ r ∈ (ladderStep sw sh acc tb).2, r.1 % 2 = 0 ∧ r.2.1 % 2 = 0 := by
  intro r hr
  unfold ladderStep at hr
  dsimp only at hr
  split at hr
  · exact hP r hr
  · split at hr
    · exact hP r hr
    · dsimp only at hr
      rcases List.mem_append.1 hr with h | h
      · exact hP r h
      · have hre := List.mem_singleton.1 h
        subst hre
        exact ⟨(pick_even sw sh tb.1).1, (pick_even sw sh tb.1).2⟩

/-- C6: for a 1920×1080 source, no rung of the HLS rendition list exceeds
height 1080; and for every source, the list is nonempty and every
produced (width, height) pair is even in both dimensions. -/
theorem hls_ladder_even_bounded :
    (∀ r ∈ buildHlsResolutions 1920 1080, r.2.1 ≤ 1080) ∧
    (∀ sw sh : ℤ, buildHlsResolutions sw sh ≠ [] ∧
      ∀ r ∈ buildHlsResolutions sw sh, r.1 % 2 = 0 ∧ r.2.1 % 2 = 0) := by
  constructor
  · decide
  · intro sw sh
    constructor
    · unfold buildHlsResolutions
      dsimp only
      split
      · simp
      · rename_i hne
        simpa using hne
    · intro r hr
      unfold buildHlsResolutions at hr
      dsimp only at hr
      split at hr
      · have hre := List.mem_singleton.1 hr
        subst hre
        exact ⟨floorEven_emod _, floorEven_emod _⟩
      · exact foldl_inv
          (P := fun acc : List (ℤ × ℤ) × List (ℤ × ℤ × ℤ) =>
            ∀ r ∈ acc.2, r.1 % 2 = 0 ∧ r.2.1 % 2 = 0)
          _ (fun acc tb hP => ladderStep_inv sw sh acc tb hP)
          hlsLadder ([], []) (by intro r hr'; cases hr') r hr

/-! ## C5: the gallery sort -/

/-- The key order is total. -/
theorem keyLe_total (a b : Int × Int) : keyLe a b = true ∨ keyLe b a = true := by
  simp only [keyLe, Bool.or_eq_true, decide_eq_true_eq, Bool.and_eq_true]
  omega

/-- The key order is transitive. -/
theorem keyLe_trans {a b c : Int × Int} (h1 : keyLe a b = true)
    (h2 : keyLe b c = true) : keyLe a c = true := by
  simp only [keyLe, Bool.or_eq_true, decide_eq_true_eq, Bool.and_eq_true] at h1 h2 ⊢
  omega

/-- Membership in a stable insertion. -/
theorem mem_insertSorted {α : Type _} (x z : α × (Int × Int)) :
    ∀ l : List (α × (Int × Int)), z ∈ insertSorted x l ↔ z = x ∨ z ∈ l
  | [] => by simp [insertSorted]
  | y :: ys => by
    unfold insertSorted
    split
    · rw [List.mem_cons, mem_insertSorted x z ys, List.mem_cons]
      tauto
    · simp only [List.mem_cons]

/-- Stable insertion preserves sortedness by key. -/
theorem pairwise_insertSorted {α : Type _} (x : α × (Int × Int)) :
    ∀ l : List (α × (Int × Int)),
      l.Pairwise (fun a b => keyLe a.2 b.2 = true) →
      (insertSorted x l).Pairwise (fun a b => keyLe a.2 b.2 = true)
  | [], _ => by simp [insertSorted]
  | y :: ys, hp => by
    unfold insertSorted
    rw [List.pairwise_cons] at hp
    obtain ⟨hy, hys⟩ := hp
    split
    · rename_i hyx
      rw [List.pairwise_cons]
      refine ⟨?_, pairwise_insertSorted x ys hys⟩
      intro z hz
      rcases (mem_insertSorted x z ys).1 hz with rfl | hzys
      · exact hyx
      · exact hy z hzys
    · rename_i hyx
      have hxy : keyLe x.2 y.2 = true := by
        rcases keyLe_total y.2 x.2 with h | h
        · exact absurd h hyx
        · exact h
      rw [List.pairwise_cons]
      refine ⟨?_, List.pairwise_cons.2 ⟨hy, hys⟩⟩
      intro z hz
      rcases List.mem_cons.1 hz with rfl | hzys
      · exact hxy
      · exact keyLe_trans hxy (hy z hzys)

/-- The stable sort is sorted by key. -/
theorem stableSort_pairwise {α : Type _} (l : List (α × (Int × Int))) :
    (stableSortByKey l).Pairwise (fun a b => keyLe a.2 b.2 = true) := by
  unfold stableSortByKey
  exact foldl_inv
    (P := fun acc : List (α × (Int × Int)) =>
      acc.Pairwise (fun a b => keyLe a.2 b.2 = true))
    _ (fun acc x h => pairwise_insertSorted x acc h) l [] (by simp)

/-- Elements of the sorted list come from the accumulator or the input. -/
theorem stableSort_sub {α : Type _} :
    ∀ (l acc : List (α × (Int × Int))) (z : α × (Int × Int)),
      z ∈ l.foldl (fun a x => insertSorted x a) acc → z ∈ acc ∨ z ∈ l
  | [], _, _, h => .inl h
  | x :: l, acc, z, h => by
    rw [List.foldl_cons] at h
    rcases stableSort_sub l (insertSorted x acc) z h with h' | h'
    · rcases (mem_insertSorted x z acc).1 h' with rfl | h''
      · exact .inr (List.mem_cons_self _ _)
      · exact .inl h''
    · exact .inr (List.mem_cons_of_mem x h')

/-- Every element of a successful `exceptMapM` image has a preimage. -/
theorem exceptMapM_ok_mem {ε α β : Type _} {f : α → Except ε β} :
    ∀ {l : List α} {bs : List β}, exceptMapM f l = .ok bs →
      ∀ b ∈ bs, ∃ a ∈ l, f a = .ok b := by
  intro l
  induction l with
  | nil =>
    intro bs h b hb
    unfold exceptMapM at h
    injection h with h'
    subst h'
    cases hb
  | cons a l ih =>
    intro bs h b hb
    unfold exceptMapM at h
    cases hfa : f a with
    | error e =>
      rw [hfa] at h
      simp only [Bind.bind, Except.bind] at h
      cases h
    | ok b0 =>
      rw [hfa] at h
      cases hrest : exceptMapM f l with
      | error e =>
        rw [hrest] at h
        simp only [Bind.bind, Except.bind] at h
        cases h
      | ok bs0 =>
        rw [hrest] at h
        simp only [Bind.bind, Except.bind, Pure.pure, Except.pure,
          Except.ok.injEq] at h
        subst h
        rcases List.mem_cons.1 hb with rfl | hb'
        · exact ⟨a, List.mem_cons_self a l, hfa⟩
        · obtain ⟨a', ha', hfa'⟩ := ih hrest b hb'
          exact ⟨a', List.mem_cons_of_mem a ha', hfa'⟩

/-- A successful gallery load decomposes into a keyed list that the
stable sort orders. -/
theorem loadAllProjects_ok (fs : FS) (inc : Bool) (ps : List Project)
    (h : loadAllProjects fs inc = .ok ps) :
    ∃ keyed : List (Project × (Int × Int)),
      (∀ pk ∈ keyed, sortKey pk.1 = .ok pk.2) ∧
      ps = (stableSortByKey keyed).map Prod.fst := by
  unfold loadAllProjects at h
  simp only [Bind.bind, Except.bind] at h
  split at h
  · cases h
  · split at h
    · cases h
    · rename_i keyed h2
      simp only [Pure.pure, Except.pure, Except.ok.injEq] at h
      refine ⟨keyed, ?_, h.symm⟩
      intro pk hpk
      obtain ⟨p, -, hfp⟩ := exceptMapM_ok_mem h2 pk hpk
      cases hsk : sortKey p with
      | error e =>
        rw [hsk] at hfp
        cases hfp
      | ok k =>
        rw [hsk] at hfp
        simp only [Pure.pure, Except.pure, Except.ok.injEq] at hfp
        rw [← hfp]
        exact hsk

/-- C5 (amended): a successful `load_all_projects` is sorted so that keys
ascend pairwise — all pinned before all unpinned, newer before older
within a pin class; a string date is keyed through `_parse_iso_date`,
with unparseable strings and missing dates keyed like `date.min`
(ordinal 1, the oldest any date can sort); and the concrete A/C/B
directory returns `[A, C, B]`.  (The original claim's "never raising" fails for
non-string, non-null, non-date truthy date values — see the
counterexample.) -/
theorem load_all_projects_sorted :
    (∀ (fs : FS) (inc : Bool) (ps : List Project),
      loadAllProjects fs inc = .ok ps →
      ps.Pairwise (fun p q =>
        ∀ kp kq, sortKey p = .ok kp → sortKey q = .ok kq →
          keyLe kp kq = true)) ∧
    (∀ (p : Project) (s : Str), p.creation_date = .prim (.str s) →
      sortKey p = .ok (-(if pyTruthyV p.pinned then 1 else 0),
        -(parseIsoOrd s : Int))) ∧
    (∀ s : Str, isValidIsoDate s = false → parseIsoOrd s = 1) ∧
    (∀ p : Project, p.creation_date = .prim .null →
      sortKey p = .ok (-(if pyTruthyV p.pinned then 1 else 0), -1)) ∧
    (∀ s : Str, 1 ≤ parseIsoOrd s) ∧
    (loadAllProjects c5fs false).map (fun l => l.map Project.slug) =
      .ok [("proj-a").data, ("proj-c").data, ("proj-b").data] := by
  refine ⟨?_, ?_, ?_, ?_, ?_, ?_⟩
  · intro fs inc ps h
    obtain ⟨keyed, hkeys, rfl⟩ := loadAllProjects_ok fs inc ps h
    rw [List.pairwise_map]
    refine List.Pairwise.imp_of_mem ?_ (stableSort_pairwise keyed)
    intro a b ha hb hle kp kq hkp hkq
    have ha' : sortKey a.1 = .ok a.2 := hkeys a
      ((stableSort_sub keyed [] a ha).resolve_left (by intro h'; cases h'))
    have hb' : sortKey b.1 = .ok b.2 := hkeys b
      ((stableSort_sub keyed [] b hb).resolve_left (by intro h'; cases h'))
    rw [ha'] at hkp
    rw [hb'] at hkq
    injection hkp with hkp
    injection hkq with hkq
    rw [← hkp, ← hkq]
    exact hle
  · intro p s hdate
    simp [sortKey, hdate]
  · intro s h
    simp [parseIsoOrd, h]
  · intro p hdate
    simp [sortKey, hdate]
  · intro s
    unfold parseIsoOrd
    split
    · rename_i hvalid
      unfold isValidIsoDate at hvalid
      split
      · rename_i ys ms ds heq
        rw [heq] at hvalid
        simp only [Bool.and_eq_true, decide_eq_true_eq] at hvalid
        obtain ⟨⟨-, hd⟩, -⟩ := hvalid
        unfold dateOrdinal
        exact le_trans hd (Nat.le_add_left _ _)
      · exact Nat.le_refl 1
    · exact Nat.le_refl 1
  · decide

/-- C5 counterexample: a project whose frontmatter `date` is the YAML
integer `5` makes `load_all_projects` raise `AttributeError` inside the
sort key (claimed: "unparseable or missing dates … never raising"). -/
theorem load_all_projects_counterexample :
    loadAllProjects c5badfs false = .error .attributeError := by
  decide

/-- Witness for C5: the sortedness part applied to the concrete A/C/B
directory (adjacent keys of A and C satisfy the key order), the sort-key
parts applied at a concrete project and strings. -/
theorem load_all_projects_sorted_witness :
    keyLe ((-1 : Int), (-738886 : Int)) ((-1 : Int), (-738521 : Int)) = true ∧
    sortKey c5projEx = .ok (0, -1) ∧
    parseIsoOrd ("garbage").data = 1 ∧
    (1 : Nat) ≤ parseIsoOrd ("2024-01-01").data ∧
    (loadAllProjects c5fs false).map (fun l => l.map Project.slug) =
      .ok [("proj-a").data, ("proj-c").data, ("proj-b").data] := by
  obtain ⟨ha, -, hc, hd, he, hf⟩ := load_all_projects_sorted
  refine ⟨?_, ?_, hc ("garbage").data (by decide), he ("2024-01-01").data, hf⟩
  · have hok : loadAllProjects c5fs false = .ok c5res := by decide
    have hpw := ha c5fs false c5res hok
    have h01 := (List.pairwise_iff_get.1 hpw) ⟨0, by decide⟩ ⟨1, by decide⟩
      (by decide)
    exact h01 ((-1 : Int), (-738886 : Int)) ((-1 : Int), (-738521 : Int))
      (by decide) (by decide)
  · have h := hd c5projEx rfl
    have hif : (-(if pyTruthyV c5projEx.pinned then (1 : Int) else 0),
        (-1 : Int)) = ((0 : Int), (-1 : Int)) := by decide
    rw [hif] at h
    exact h

/-! ## C2: the optimistic-concurrency save endpoint -/

/-- Writing a key makes it the key's binding. -/
theorem alLookup_alSet_self (k : Str) (v : α) :
    ∀ l : List (Str × α), alLookup k (alSet k v l) = some v
  | [] => by simp [alSet, alLookup]
  | e :: rest => by
    unfold alSet
    split
    · simp [alLookup]
    · rename_i hne
      unfold alLookup
      rw [if_neg hne]
      exact alLookup_alSet_self k v rest

/-- A slug of the pattern language is nonempty. -/
theorem slugLang_isEmpty {s : Str} (h : slugLang s = true) :
    s.isEmpty = false := by
  cases s with
  | nil => cases h
  | cons c rest => rfl

/-- Slug characters are never Python whitespace. -/
theorem slugChar_not_space {c : Char}
    (h : (isSlugStart c || c = '_' || c = '-') = true) : isPySpace c = false := by
  simp only [Bool.or_eq_true, decide_eq_true_eq] at h
  rcases h with (h | rfl) | rfl
  · simp only [isSlugStart, Bool.or_eq_true, Bool.and_eq_true, decide_eq_true_eq,
      isDigitChar] at h
    simp only [isPySpace]
    rcases h with ⟨h1, h2⟩ | ⟨h1, h2⟩ <;>
      · simp only [Bool.or_eq_false_iff, decide_eq_false_iff_not]
        refine ⟨⟨⟨⟨⟨?_, ?_⟩, ?_⟩, ?_⟩, ?_⟩, ?_⟩ <;>
          · intro hc
            subst hc
            simp_all
  · rfl
  · rfl

/-- Dropping leading whitespace is the identity on whitespace-free
strings. -/
theorem dropWhile_space_eq_self {t : Str}
    (h : ∀ c ∈ t, isPySpace c = false) : t.dropWhile isPySpace = t := by
  cases t with
  | nil => rfl
  | cons c rest =>
    rw [List.dropWhile_cons, h c (List.mem_cons_self c rest)]
    simp

/-- `strip()` is the identity on a slug of the pattern language. -/
theorem pyStrip_slugLang {s : Str} (h : slugLang s = true) : pyStrip s = s := by
  have hall : ∀ c ∈ s, isPySpace c = false := by
    intro c hc
    cases s with
    | nil => cases hc
    | cons c0 rest =>
      simp only [slugLang, Bool.and_eq_true, List.all_eq_true] at h
      rcases List.mem_cons.1 hc with rfl | hmem
      · exact slugChar_not_space (by simp [h.1])
      · exact slugChar_not_space (h.2 c hmem)
  unfold pyStrip
  rw [dropWhile_space_eq_self hall,
    dropWhile_space_eq_self (fun c hc => hall c (List.mem_reverse.1 hc)),
    List.reverse_reverse]

/-- A revision string is never empty. -/
theorem revStr_isEmpty (c : Str) : (revStr c).isEmpty = false := rfl

/-- C2: with a stored project at revision `R1 = revStr c1`, a save
presenting `base_revision = R1` succeeds and answers with the new
revision `R2 = revStr c2 ≠ R1`; a second save still presenting `R1`
(without force) is rejected with a 409 payload carrying the server's
current revision and markdown and the caller's attempted markdown; the
same request with `force` set writes unconditionally. -/
theorem save_conflict_protocol
    (fs : FS) (slug c1 c2 c3 : Str) (fs1 : FS) (req1 req2 req3 : SaveReq)
    (p0 p1 : Project)
    (hs : slugLang slug = true)
    (hfs : alLookup slug fs = some c1)
    (h1s : req1.slug = slug) (h1o : req1.original_slug = none)
    (h1b : req1.base_revision = some (revStr c1)) (h1f : req1.force = false)
    (hload0 : loadProject fs slug = .ok (some p0))
    (hc2 : c2 = serializeFrontmatter (buildProjectFrontmatter req1 slug).1
      req1.markdown)
    (hfs1 : fs1 = alSet slug c2 fs)
    (hne : revStr c2 ≠ revStr c1)
    (hload1 : loadProject fs1 slug = .ok (some p1))
    (h2s : req2.slug = slug) (h2o : req2.original_slug = none)
    (h2b : req2.base_revision = some (revStr c1)) (h2f : req2.force = false)
    (h3s : req3.slug = slug) (h3o : req3.original_slug = none)
    (h3b : req3.base_revision = some (revStr c1)) (h3f : req3.force = true)
    (hc3 : c3 = serializeFrontmatter (buildProjectFrontmatter req3 slug).1
      req3.markdown) :
    saveProjectEndpoint fs req1 =
      .ok (.success slug (some (revStr c2)), fs1) ∧
    revStr c2 ≠ revStr c1 ∧
    saveProjectEndpoint fs1 req2 =
      .ok (.conflict (revStr c2) p1.markdown_content req2.markdown, fs1) ∧
    saveProjectEndpoint fs1 req3 =
      .ok (.success slug (some (revStr c3)), alSet slug c3 fs1) := by
  have hps := pyStrip_slugLang hs
  have hie := slugLang_isEmpty hs
  have hvs : validSlug slug = true := by simp [validSlug, hs]
  have hrev1 : contentRevision fs slug = some (revStr c1) := by
    simp [contentRevision, hfs]
  have hrev2 : contentRevision fs1 slug = some (revStr c2) := by
    simp [contentRevision, hfs1, alLookup_alSet_self, hc2]
  refine ⟨?_, hne, ?_, ?_⟩
  · simp only [saveProjectEndpoint, h1s, h1o, h1f, hie, hps, hvs,
      Bool.not_false, Bool.false_eq_true, not_false_eq_true, Bool.not_eq_true,
      if_false, ite_false, ite_true, Bind.bind, Except.bind, Pure.pure,
      Except.pure, h1b, revStr_isEmpty, Bool.and_self, hrev1, hload0,
      saveProject, deleteProject]
    simp [← hc2, ← hfs1, hrev2]
  · simp only [saveProjectEndpoint, h2s, h2o, h2f, hie, hps, hvs,
      Bind.bind, Except.bind, Pure.pure, Except.pure, h2b, revStr_isEmpty,
      hrev2, hload1]
    simp [hne, Ne.symm hne]
  · simp only [saveProjectEndpoint, h3s, h3o, h3f, hie, hps, hvs,
      Bind.bind, Except.bind, Pure.pure, Except.pure, h3b, revStr_isEmpty,
      hrev2, hload1, saveProject, deleteProject]
    simp [contentRevision, alLookup_alSet_self, hc3]

/-- Witness for C2: the three-request scenario run on a concrete stored
project. -/
theorem save_conflict_protocol_witness :
    saveProjectEndpoint c2fs0 c2req1 =
      .ok (.success (("p").data) (some (revStr c2c2)), c2fs1) ∧
    revStr c2c2 ≠ revStr c2content1 ∧
    saveProjectEndpoint c2fs1 c2req2 =
      .ok (.conflict (revStr c2c2) c2p1.markdown_content c2req2.markdown, c2fs1) ∧
    saveProjectEndpoint c2fs1 c2req3 =
      .ok (.success (("p").data) (some (revStr c2c3)),
        alSet (("p").data) c2c3 c2fs1) :=
  save_conflict_protocol c2fs0 (("p").data) c2content1 c2c2 c2c3 c2fs1
    c2req1 c2req2 c2req3 c2p0 c2p1
    (by decide) (by decide) rfl rfl rfl rfl (by decide) rfl rfl
    (by decide) (by decide) rfl rfl rfl rfl rfl rfl rfl rfl rfl

/-! ## C7: malformed frontmatter -/

/-- C7 counterexample: a date-shaped scalar with an out-of-range
component.  `yaml.safe_load("date: 2024-13-01")` raises `ValueError` from
`datetime.date` (not a `yaml.YAMLError`), `parse_frontmatter` does not
catch it, and `load_project` raises instead of defaulting. -/
theorem malformed_frontmatter_counterexample :
    parseFmSplit (("---\ndate: 2024-13-01\n---\n\nbody").data) =
      some (("date: 2024-13-01").data, ("body").data) ∧
    yamlLoadDoc (("date: 2024-13-01").data) =
      .error (.valueError (("month must be in 1..12").data)) ∧
    parseFrontmatter (("---\ndate: 2024-13-01\n---\n\nbody").data) =
      .error (.valueError (("month must be in 1..12").data)) ∧
    loadProject [(("m2").data, ("---\ndate: 2024-13-01\n---\n\nbody").data)]
      (("m2").data) =
      .error (.valueError (("month must be in 1..12").data)) :=
  ⟨by decide, by decide, by decide, by decide⟩

/-- C7 (amended): when the frontmatter block fails to load with a
`yaml.YAMLError`, `parse_frontmatter` yields an empty mapping with the
body and `load_project` completes normally with every frontmatter-derived
field at its default; a `ValueError` from an out-of-range date escapes
instead (see the counterexample). -/
theorem malformed_frontmatter_defaults (fs : FS) (slug content g1 g2 : Str)
    (hs : validSlug slug = true)
    (hfs : alLookup slug fs = some content)
    (hsplit : parseFmSplit content = some (g1, g2))
    (hbad : yamlLoadDoc g1 = .error .yamlError) :
    parseFrontmatter content = .ok (.map [], g2) ∧
    loadProject fs slug = .ok (some
      { slug := slug, name := .prim (.str slug), creation_date := .prim .null,
        is_draft := .prim (.bool false), pinned := .prim (.bool false),
        youtube_link := .prim .null, markdown_content := g2,
        revision := some (revStr content),
        video_link := .prim .null, thumbnail_link := .prim .null,
        sprite_sheet_link := .prim .null, frames := .prim .null,
        columns := .prim .null, rows := .prim .null,
        frame_width := .prim .null, frame_height := .prim .null,
        fps := .prim .null, video_width := .prim .null,
        video_height := .prim .null }) := by
  have hpf : parseFrontmatter content = .ok (.map [], g2) := by
    unfold parseFrontmatter
    rw [hsplit]
    simp only [hbad]
  refine ⟨hpf, ?_⟩
  unfold loadProject
  rw [if_neg (by simp [hs]), hfs]
  simp only [hpf]
  rfl

/-- Witness for C7 at a concrete file whose frontmatter is the malformed
YAML `a: [1`. -/
theorem malformed_frontmatter_defaults_witness :
    parseFrontmatter (("---\na: [1\n---\n\nbody text").data) =
      .ok (.map [], ("body text").data) ∧
    loadProject [(("m1").data, ("---\na: [1\n---\n\nbody text").data)]
      (("m1").data) = .ok (some
      { slug := ("m1").data, name := .prim (.str ("m1").data),
        creation_date := .prim .null,
        is_draft := .prim (.bool false), pinned := .prim (.bool false),
        youtube_link := .prim .null, markdown_content := ("body text").data,
        revision := some (revStr (("---\na: [1\n---\n\nbody text").data)),
        video_link := .prim .null, thumbnail_link := .prim .null,
        sprite_sheet_link := .prim .null, frames := .prim .null,
        columns := .prim .null, rows := .prim .null,
        frame_width := .prim .null, frame_height := .prim .null,
        fps := .prim .null, video_width := .prim .null,
        video_height := .prim .null }) :=
  malformed_frontmatter_defaults
    [(("m1").data, ("---\na: [1\n---\n\nbody text").data)]
    (("m1").data) (("---\na: [1\n---\n\nbody text").data)
    (("a: [1").data) (("body text").data)
    (by decide) (by decide) (by decide) (by decide)

/-! ## C8: the cleanup sweep -/

/-- Witness for C6: the 1080p rung of the 1920×1080 ladder respects the
height bound, and a 640×360 source yields a nonempty all-even ladder. -/
theorem hls_ladder_even_bounded_witness :
    (((1920 : ℤ), (1080 : ℤ), (5000 : ℤ)) ∈ buildHlsResolutions 1920 1080 ∧
      ((1920 : ℤ), (1080 : ℤ), (5000 : ℤ)).2.1 ≤ 1080) ∧
    buildHlsResolutions 640 360 ≠ [] ∧
    (((640 : ℤ), (360 : ℤ), (1200 : ℤ)) ∈ buildHlsResolutions 640 360 ∧
      ((640 : ℤ), (360 : ℤ), (1200 : ℤ)).1 % 2 = 0 ∧
      ((640 : ℤ), (360 : ℤ), (1200 : ℤ)).2.1 % 2 = 0) := by
  refine ⟨⟨by decide, hls_ladder_even_bounded.1 _ (by decide)⟩,
    (hls_ladder_even_bounded.2 640 360).1,
    ⟨by decide, (hls_ladder_even_bounded.2 640 360).2 _ (by decide)⟩⟩

/-! ## C1: the frontmatter regex on serialized output -/

/-- A character absent per `contains = false` is not a member. -/
theorem not_mem_of_contains_false {l : Str} {a : Char}
    (h : l.contains a = false) : a ∉ l := by
  intro hm
  have ht : l.contains a = true := List.elem_eq_true_of_mem hm
  rw [h] at ht
  exact Bool.noConfusion ht

/-- Prepending newline-free text commutes with the lazy close-fence scan. -/
theorem findClose_prepend (l : Str) (s : Str) (h : ∀ c ∈ l, c ≠ '\n') :
    findClose (l ++ s) = (fun p => (l ++ p.1, p.2)) <$> findClose s := by
  induction l with
  | nil =>
    rw [List.nil_append]
    cases findClose s <;> rfl
  | cons c rest ih =>
    have hc : ¬ (c = '\n') := h c (List.mem_cons_self c rest)
    show findClose (c :: (rest ++ s)) = _
    simp only [findClose]
    rw [if_neg hc, ih (fun x hx => h x (List.mem_cons_of_mem _ hx))]
    cases findClose s <;> rfl

/-- A body whose leading whitespace has no newline defeats greedy `\s*\n`. -/
theorem wsNlDrop_none (md : Str) (h : mdLeadOk md = true) :
    wsNlDrop md = none := by
  induction md with
  | nil => rfl
  | cons c rest ih =>
    by_cases hsp : isPySpace c = true
    · simp only [mdLeadOk, List.takeWhile_cons, if_pos hsp, List.contains_cons,
        Bool.not_or, Bool.and_eq_true, Bool.not_eq_true'] at h
      have hc : ¬ (c = '\n') := fun he => by
        rw [he] at h
        exact Bool.noConfusion ((beq_self_eq_true '\n').symm.trans h.1)
      have hrest : mdLeadOk rest = true := by
        simp only [mdLeadOk, Bool.not_eq_true']
        exact h.2
      simp only [wsNlDrop, if_pos hsp]
      rw [ih hrest]
      exact if_neg hc
    · simp only [wsNlDrop]
      exact if_neg hsp

/-- The `\n\n` between the closing fence and the body matches `\s*\n`
exactly when the body itself cannot extend the match. -/
theorem wsNlDrop_two_nl (md : Str) (h : wsNlDrop md = none) :
    wsNlDrop ('\n' :: '\n' :: md) = some md := by
  simp only [wsNlDrop, if_pos (by decide : isPySpace '\n' = true)]
  rw [h]
  simp

/-- The close fence never matches at a line that does not start with `-`. -/
theorem closeAt_not_dash (c : Char) (rest : Str) (h : ¬ (c = '-')) :
    closeAt (c :: rest) = none := by
  unfold closeAt
  split
  · rename_i heq
    injection heq with h1 _
    exact absurd h1 h
  · rfl

/-- One lazy-scan step over a newline when the close fence matches. -/
theorem findClose_nl_some (rest body : Str) (h : closeAt rest = some body) :
    findClose ('\n' :: rest) = some ([], body) := by
  simp only [findClose, if_true]
  rw [h]

/-- One lazy-scan step over a newline when the close fence does not match. -/
theorem findClose_nl_none (rest : Str) (h : closeAt rest = none) :
    findClose ('\n' :: rest) = (fun p => ('\n' :: p.1, p.2)) <$> findClose rest := by
  simp only [findClose, if_true]
  rw [h]

/-- `\s*\n` has no candidate match at a non-whitespace head. -/
theorem wsNlDropAll_nil_of_head (c : Char) (t : Str) (h : isPySpace c = false) :
    wsNlDropAll (c :: t) = [] := by
  simp only [wsNlDropAll]
  rw [if_neg (by rw [h]; exact Bool.noConfusion)]

/-- The lazy close-fence scan over the dumped lines followed by
`---\n\n<md>` recovers exactly the joined lines and the body. -/
theorem findClose_dump (md : Str) (hmd : wsNlDrop md = none) :
    ∀ lines : List Str, (∀ l ∈ lines, lineOk l = true) → lines ≠ [] →
      findClose (joinNl lines ++ (("---\n\n").data ++ md)) =
        some (intercalateNl lines, md) := by
  intro lines
  induction lines with
  | nil => intro _ hne; exact absurd rfl hne
  | cons l ls ih =>
    intro hok _
    have hl : lineOk l = true := hok l (List.mem_cons_self _ _)
    have hlnl : ∀ c ∈ l, c ≠ '\n' := by
      cases l with
      | nil => exact absurd hl (by decide)
      | cons c0 r0 =>
        simp only [lineOk, Bool.and_eq_true, Bool.not_eq_true'] at hl
        intro x hx he
        rw [he] at hx
        exact not_mem_of_contains_false hl.2 hx
    have hca0 : closeAt (("---\n\n").data ++ md) = some md :=
      wsNlDrop_two_nl md hmd
    cases ls with
    | nil =>
      rw [show joinNl [l] = (l ++ ['\n']) ++ [] from rfl, List.append_nil,
        List.append_assoc, findClose_prepend l _ hlnl, List.singleton_append,
        findClose_nl_some _ _ hca0]
      simp [intercalateNl]
    | cons l2 ls2 =>
      have hok2 : ∀ x ∈ l2 :: ls2, lineOk x = true :=
        fun x hx => hok x (List.mem_cons_of_mem _ hx)
      have hca : closeAt (joinNl (l2 :: ls2) ++ (("---\n\n").data ++ md)) = none := by
        have hl2 : lineOk l2 = true := hok2 l2 (List.mem_cons_self _ _)
        cases l2 with
        | nil => exact absurd hl2 (by decide)
        | cons c2 r2 =>
          have hc2 : ¬ (c2 = '-') := by
            simp only [lineOk, Bool.and_eq_true, decide_eq_true_eq] at hl2
            exact hl2.1
          exact closeAt_not_dash c2 _ hc2
      rw [show joinNl (l :: l2 :: ls2) = (l ++ ['\n']) ++ joinNl (l2 :: ls2) from rfl,
        List.append_assoc, List.append_assoc, findClose_prepend l _ hlnl,
        List.singleton_append, findClose_nl_none _ hca, ih hok2 (by simp)]
      simp [intercalateNl]

/-- The frontmatter regex on `serialize_frontmatter` output recovers the
dumped lines (group 1) and the body (group 2). -/
theorem parseFmSplit_serialize (fm : List (Str × YVal)) (md : Str)
    (hlines : ∀ l ∈ dumpFM fm, lineOk l = true)
    (hhead : ∃ c r rest, dumpFM fm = (c :: r) :: rest ∧ isPySpace c = false)
    (hmd : mdLeadOk md = true) :
    parseFmSplit (serializeFrontmatter fm md) =
      some (intercalateNl (dumpFM fm), md) := by
  obtain ⟨c, r, rest, hdf, hcn⟩ := hhead
  have hne : dumpFM fm ≠ [] := by rw [hdf]; simp
  have hbody : findClose (joinNl (dumpFM fm) ++ (("---\n\n").data ++ md)) =
      some (intercalateNl (dumpFM fm), md) :=
    findClose_dump md (wsNlDrop_none md hmd) (dumpFM fm) hlines hne
  have hY : wsNlDropAll ((joinNl (dumpFM fm) ++ ("---\n\n").data) ++ md) = [] := by
    rw [hdf]
    exact wsNlDropAll_nil_of_head c _ hcn
  show (wsNlDropAll ('\n' :: ((joinNl (dumpFM fm) ++ ("---\n\n").data) ++ md))).findSome?
      findClose = some (intercalateNl (dumpFM fm), md)
  have hY2 : wsNlDropAll ((joinNl (dumpFM fm) ++ (['-', '-', '-', '\n', '\n'] : Str)) ++ md) =
      [] := hY
  have hbody2 : findClose (joinNl (dumpFM fm) ++ ((['-', '-', '-', '\n', '\n'] : Str) ++ md)) =
      some (intercalateNl (dumpFM fm), md) := hbody
  simp only [wsNlDropAll, if_true]
  rw [if_pos (by decide : isPySpace '\n' = true), hY2, List.nil_append]
  simp only [List.findSome?]
  rw [List.append_assoc, hbody2]

/-! ## C1: re-splitting and re-grouping the dumped lines -/

/-- Splitting a newline-free string yields that single line. -/
theorem splitNl_no_nl (l : Str) (h : ∀ c ∈ l, c ≠ '\n') : splitNl l = [l] := by
  induction l with
  | nil => rfl
  | cons c rest ih =>
    simp only [splitNl]
    rw [if_neg (h c (List.mem_cons_self _ _)),
      ih (fun x hx => h x (List.mem_cons_of_mem _ hx))]

/-- Splitting past a newline that follows a newline-free line. -/
theorem splitNl_append_nl (l t : Str) (h : ∀ c ∈ l, c ≠ '\n') :
    splitNl (l ++ '\n' :: t) = l :: splitNl t := by
  induction l with
  | nil =>
    rw [List.nil_append]
    simp [splitNl]
  | cons c rest ih =>
    show splitNl (c :: (rest ++ '\n' :: t)) = (c :: rest) :: splitNl t
    simp only [splitNl]
    rw [if_neg (h c (List.mem_cons_self _ _)),
      ih (fun x hx => h x (List.mem_cons_of_mem _ hx))]

/-- `splitNl` inverts `intercalateNl` on newline-free lines. -/
theorem splitNl_intercalate (lines : List Str) (hne : lines ≠ [])
    (h : ∀ l ∈ lines, ∀ c ∈ l, c ≠ '\n') :
    splitNl (intercalateNl lines) = lines := by
  induction lines with
  | nil => exact absurd rfl hne
  | cons l ls ih =>
    cases ls with
    | nil => exact splitNl_no_nl l (h l (List.mem_cons_self _ _))
    | cons l2 ls2 =>
      show splitNl (l ++ '\n' :: intercalateNl (l2 :: ls2)) = l :: l2 :: ls2
      rw [splitNl_append_nl l _ (h l (List.mem_cons_self _ _)),
        ih (by simp) (fun x hx => h x (List.mem_cons_of_mem _ hx))]

/-- Two spaces are a prefix of nothing that starts with another char. -/
theorem isPrefixOfTwoSpace_false (c : Char) (t : Str) (h : ¬ (c = ' ')) :
    (("  ").data).isPrefixOf (c :: t) = false := by
  have hbe : (' ' == c) = false := beq_eq_false_iff_ne.mpr (fun he => h he.symm)
  show (' ' == c && (([' '] : Str).isPrefixOf t)) = false
  rw [hbe, Bool.false_and]

/-- A list is a Boolean prefix of itself extended by anything. -/
theorem isPrefixOf_append_self (p t : Str) : p.isPrefixOf (p ++ t) = true :=
  ( List.isPrefixOf_iff_prefix).mpr (List.prefix_append _ _)

/-- The grouping step dedents an indented sub-line onto the pending block. -/
theorem groupStep_indent (kv : Str × YScalar) (p : List Str × List (Str × List Str)) :
    groupStep (("  ").data ++ kv.1 ++ (": ").data ++ dumpScalar kv.2) p =
      ((kv.1 ++ (": ").data ++ dumpScalar kv.2) :: p.1, p.2) := by
  have hpre : (("  ").data).isPrefixOf
      (("  ").data ++ kv.1 ++ (": ").data ++ dumpScalar kv.2) = true := by
    rw [List.append_assoc, List.append_assoc]
    exact isPrefixOf_append_self _ _
  unfold groupStep
  rw [if_pos hpre]
  rfl

/-- The grouping step closes an entry at an unindented line. -/
theorem groupStep_head (line : Str) (c : Char) (t : Str) (hline : line = c :: t)
    (h : ¬ (c = ' ')) (p : List Str × List (Str × List Str)) :
    groupStep line p = ([], (line, p.1) :: p.2) := by
  subst hline
  have hfalse : (("  ").data).isPrefixOf (c :: t) = false := isPrefixOfTwoSpace_false c t h
  simp [groupStep, hfalse]

/-- Folding the grouping step over one entry's indented block. -/
theorem foldr_groupStep_sub (sub : List (Str × YScalar)) (acc : List (Str × List Str)) :
    List.foldr groupStep ([], acc)
      (sub.map (fun kv => ("  ").data ++ kv.1 ++ (": ").data ++ dumpScalar kv.2)) =
      (sub.map (fun kv => kv.1 ++ (": ").data ++ dumpScalar kv.2), acc) := by
  induction sub with
  | nil => rfl
  | cons kv rest ih =>
    rw [List.map_cons, List.foldr_cons, ih, groupStep_indent, List.map_cons]

/-- Folding the grouping step over all dumped entries recovers each head
line paired with its dedented block. -/
theorem foldr_groupStep_dump (fm : List (Str × YVal))
    (hhead : ∀ kv ∈ fm, ∃ c t, entryHeadLine kv = c :: t ∧ ¬ (c = ' ')) :
    ∀ acc : List (Str × List Str),
      List.foldr groupStep ([], acc) ((fm.map dumpEntryLines).flatten) =
        ([], fm.map (fun kv => (entryHeadLine kv, entrySubLines kv)) ++ acc) := by
  induction fm with
  | nil => intro acc; rfl
  | cons kv fmrest ih =>
    intro acc
    rw [List.map_cons, List.flatten_cons, List.foldr_append,
      ih (fun x hx => hhead x (List.mem_cons_of_mem _ hx)) acc]
    obtain ⟨c, t, hline, hc⟩ := hhead kv (List.mem_cons_self _ _)
    obtain ⟨k, v⟩ := kv
    cases v with
    | prim v0 =>
      rw [show dumpEntryLines (k, .prim v0) = [entryHeadLine (k, .prim v0)] from rfl,
        List.foldr_cons, List.foldr_nil, groupStep_head _ c t hline hc]
      rfl
    | map sub =>
      cases sub with
      | nil =>
        rw [show dumpEntryLines (k, .map []) = [entryHeadLine (k, .map [])] from rfl,
          List.foldr_cons, List.foldr_nil, groupStep_head _ c t hline hc]
        rfl
      | cons e es =>
        rw [show dumpEntryLines (k, .map (e :: es)) =
            entryHeadLine (k, .map (e :: es)) ::
              ((e :: es).map
                (fun kv2 => ("  ").data ++ kv2.1 ++ (": ").data ++ dumpScalar kv2.2))
          from rfl, List.foldr_cons, foldr_groupStep_sub,
          groupStep_head _ c t hline hc]
        rfl

/-- `groupEntries` on the dumped lines of a nonempty frontmatter. -/
theorem groupEntries_dump (fm : List (Str × YVal))
    (hhead : ∀ kv ∈ fm, ∃ c t, entryHeadLine kv = c :: t ∧ ¬ (c = ' ')) :
    groupEntries ((fm.map dumpEntryLines).flatten) =
      some (fm.map (fun kv => (entryHeadLine kv, entrySubLines kv))) := by
  unfold groupEntries
  rw [foldr_groupStep_dump fm hhead []]
  simp

/-- The key/value split at a `": "` separator after a `": "`-free key. -/
theorem splitKV_sep (k : Str) (v : Str)
    (hk : containsSub ((": ").data) k = false) :
    splitKV (k ++ ':' :: ' ' :: v) = some (k, v) := by
  induction k with
  | nil => rfl
  | cons c rest ih =>
    obtain ⟨hp1, hp2⟩ := Bool.or_eq_false_iff.mp hk
    have ih' := ih hp2
    show splitKV (c :: (rest ++ ':' :: ' ' :: v)) = some (c :: rest, v)
    simp only [splitKV]
    by_cases hc : c = ':'
    · subst hc
      rw [if_pos rfl]
      cases rest with
      | nil => rfl
      | cons c2 r2 =>
        have hc2 : ¬ (c2 = ' ') := by
          intro he
          subst he
          simp [List.isPrefixOf] at hp1
        show (if c2 = ' ' then some ([], r2 ++ ':' :: ' ' :: v) else
            (fun p => (':' :: p.1, p.2)) <$> splitKV (c2 :: (r2 ++ ':' :: ' ' :: v))) =
          some (':' :: c2 :: r2, v)
        rw [if_neg hc2,
          show splitKV (c2 :: (r2 ++ ':' :: ' ' :: v)) =
            splitKV ((c2 :: r2) ++ ':' :: ' ' :: v) from rfl, ih']
        rfl
    · rw [if_neg hc, ih']
      rfl

/-- The key/value split at a line-ending `":"` after a `": "`-free key not
itself ending in `":"`. -/
theorem splitKV_colon (k : Str) (hk : containsSub ((": ").data) k = false)
    (hlast : k.getLast? ≠ some ':') :
    splitKV (k ++ [':']) = some (k, []) := by
  induction k with
  | nil => rfl
  | cons c rest ih =>
    obtain ⟨hp1, hp2⟩ := Bool.or_eq_false_iff.mp hk
    show splitKV (c :: (rest ++ [':'])) = some (c :: rest, [])
    simp only [splitKV]
    by_cases hc : c = ':'
    · subst hc
      cases rest with
      | nil => exact absurd rfl hlast
      | cons c2 r2 =>
        have hc2 : ¬ (c2 = ' ') := by
          intro he
          subst he
          simp [List.isPrefixOf] at hp1
        have hlast' : (c2 :: r2).getLast? ≠ some ':' := by
          intro he
          exact hlast (by rw [List.getLast?_cons_cons]; exact he)
        rw [if_pos rfl]
        show (if c2 = ' ' then some ([], r2 ++ [':']) else
            (fun p => (':' :: p.1, p.2)) <$> splitKV (c2 :: (r2 ++ [':']))) =
          some (':' :: c2 :: r2, [])
        rw [if_neg hc2,
          show splitKV (c2 :: (r2 ++ [':'])) = splitKV ((c2 :: r2) ++ [':']) from rfl,
          ih hp2 hlast']
        rfl
    · have hlast' : rest.getLast? ≠ some ':' := by
        cases rest with
        | nil => simp
        | cons a b =>
          intro he
          exact hlast (by rw [List.getLast?_cons_cons]; exact he)
      rw [if_neg hc, ih hp2 hlast']
      rfl

/-- Dropping leading spaces is the identity without a leading space. -/
theorem dropWhile_space_id (s : Str) (h : s.head? ≠ some ' ') :
    s.dropWhile (fun c => c = ' ') = s := by
  cases s with
  | nil => rfl
  | cons c rest =>
    rw [List.dropWhile_cons, if_neg]
    intro he
    exact h (congrArg some (of_decide_eq_true he))

/-- Space-trimming is the identity without leading/trailing spaces. -/
theorem trimSpaces_id (s : Str) (h1 : s.head? ≠ some ' ')
    (h2 : s.getLast? ≠ some ' ') : trimSpaces s = s := by
  unfold trimSpaces
  rw [dropWhile_space_id s h1,
    dropWhile_space_id s.reverse (by rw [List.head?_reverse]; exact h2)]
  exact List.reverse_reverse s

/-! ## C1: the scalar resolver on emitter output -/

/-- A false Boolean is not true. -/
theorem bool_ne_true {b : Bool} (h : b = false) : ¬ (b = true) :=
  fun hx => Bool.noConfusion (h ▸ hx)

/-- Decomposition of the `plainSafe` emitter-side predicate. -/
theorem plainSafe_parts {s : Str} (h : plainSafe s = true) :
    s.head?.any isAlphaCh = true ∧
    s.all (fun c => isAlnumCh c ||
      ([' ', '.', '/', '_', '-', ':'] : List Char).contains c) = true ∧
    s.getLast? ≠ some ' ' ∧ s.getLast? ≠ some ':' ∧
    containsSub ((": ").data) s = false ∧
    nullWords.contains s = false ∧ trueWords.contains s = false ∧
    falseWords.contains s = false := by
  simp only [plainSafe, Bool.and_eq_true, decide_eq_true_eq, Bool.not_eq_true] at h
  obtain ⟨⟨⟨⟨⟨⟨⟨hA, hB⟩, hC⟩, hD⟩, hE⟩, hF⟩, hG⟩, hH⟩ := h
  exact ⟨hA, hB, hC, hD, hE, hF, hG, hH⟩

/-- An ASCII letter is not a space. -/
theorem isAlphaCh_not_space {c : Char} (h : isAlphaCh c = true) : ¬ (c = ' ') := by
  intro he
  subst he
  exact absurd h (by decide)

/-- An ASCII letter is not a decimal digit. -/
theorem isDigitChar_false_of_alpha {c : Char} (h : isAlphaCh c = true) :
    isDigitChar c = false := by
  cases hd : isDigitChar c
  · rfl
  · exfalso
    simp only [isAlphaCh, Bool.or_eq_true, Bool.and_eq_true, decide_eq_true_eq] at h
    simp only [isDigitChar, Bool.and_eq_true, decide_eq_true_eq] at hd
    rcases h with ⟨h1, h2⟩ | ⟨h1, h2⟩ <;> omega

/-- A string with an alphabetic head-test decomposes as a cons. -/
theorem head_alpha {s : Str} (h : s.head?.any isAlphaCh = true) :
    ∃ c t, s = c :: t ∧ isAlphaCh c = true := by
  cases s with
  | nil => exact absurd h (by decide)
  | cons c t =>
    refine ⟨c, t, rfl, ?_⟩
    simpa using h

/-- A word list rejects any string separated from it by a Boolean test. -/
theorem contains_false_of_all_ne {p : Str → Bool} {ws : List Str} {v : Str}
    (hws : ∀ w ∈ ws, p w = false) (hv : p v = true) : ws.contains v = false := by
  induction ws with
  | nil => rfl
  | cons w rest ih =>
    rw [List.contains_cons, ih (fun x hx => hws x (List.mem_cons_of_mem _ hx)),
      Bool.or_false, beq_eq_false_iff_ne]
    intro he
    rw [he, hws w (List.mem_cons_self _ _)] at hv
    exact Bool.noConfusion hv

/-- A text whose head is not a digit is not date-shaped. -/
theorem isDateShape_false_of_head {c : Char} (t : Str) (h : isDigitChar c = false) :
    isDateShape (c :: t) = false := by
  have h4 : ((c :: t).take 4).all isDigitChar = false := by
    rw [show ((c :: t).take 4) = c :: t.take 3 from rfl, List.all_cons, h,
      Bool.false_and]
  simp only [isDateShape, h4, Bool.and_false, Bool.false_and]

/-- An all-digits text is not date-shaped (no dash at position 4). -/
theorem isDateShape_false_of_digits {v : Str} (hall : v.all isDigitChar = true) :
    isDateShape v = false := by
  cases hd : isDateShape v
  · rfl
  · exfalso
    simp only [isDateShape, Bool.and_eq_true, decide_eq_true_eq] at hd
    obtain ⟨⟨⟨⟨⟨hlen, -⟩, h4⟩, -⟩, -⟩, -⟩ := hd
    have h4mem : v.getD 4 ' ' ∈ v := by
      rw [List.getD_eq_getElem?_getD, List.getElem?_eq_getElem (by omega : 4 < v.length)]
      simp only [Option.getD_some]
      exact List.getElem_mem _
    rw [h4] at h4mem
    exact absurd (List.all_eq_true.mp hall '-' h4mem) (by decide)

/-- Characters of the emitter's plain class avoid every YAML indicator the
resolver forbids in plain style. -/
theorem allowed_not_forbidden {c : Char}
    (h : (isAlnumCh c || ([' ', '.', '/', '_', '-', ':'] : List Char).contains c) = true) :
    plainForbidden.contains c = false := by
  cases hf : plainForbidden.contains c
  · rfl
  · exfalso
    have hmem : c ∈ plainForbidden := List.mem_of_elem_eq_true hf
    have hn : (isAlnumCh c ||
        ([' ', '.', '/', '_', '-', ':'] : List Char).contains c) = false := by
      fin_cases hmem <;> decide
    rw [hn] at h
    exact Bool.noConfusion h

/-- Emitter-side plain safety implies resolver-side plain acceptance. -/
theorem plainStrOk_of_plainSafe {s : Str} (h : plainSafe s = true) :
    plainStrOk s = true := by
  obtain ⟨hA, hB, hC, hD, hE, -, -, -⟩ := plainSafe_parts h
  simp only [plainStrOk, Bool.and_eq_true]
  refine ⟨⟨⟨⟨hA, ?_⟩, ?_⟩, ?_⟩, ?_⟩
  · rw [List.all_eq_true]
    intro x hx
    have hnf : plainForbidden.contains x = false :=
      allowed_not_forbidden (List.all_eq_true.mp hB x hx)
    exact decide_eq_true (bool_ne_true hnf)
  · exact decide_eq_true (bool_ne_true hE)
  · exact decide_eq_true hD
  · exact decide_eq_true hC

/-- The resolver reads an emitter-plain string back as itself. -/
theorem resolveScalar_plain {s : Str} (h : plainSafe s = true) :
    resolveScalar s = .ok (.prim (.str s)) := by
  obtain ⟨hA, hB, hC, hD, hE, hF, hG, hH⟩ := plainSafe_parts h
  obtain ⟨c, t, hs, hca⟩ := head_alpha hA
  have hpso : plainStrOk s = true := plainStrOk_of_plainSafe h
  subst hs
  unfold resolveScalar
  rw [if_neg (by simp : ¬ ((c :: t : Str) = []))]
  rw [if_neg (bool_ne_true hF), if_neg (bool_ne_true hG), if_neg (bool_ne_true hH)]
  rw [if_neg (show ¬ ((c :: t : Str) = [lbrace, rbrace]) by
    intro he
    have hcl : c = lbrace := by injection he
    rw [hcl] at hca
    exact absurd hca (by decide))]
  rw [if_neg (show ¬ (isDateShape (c :: t) = true) by
    rw [isDateShape_false_of_head t (isDigitChar_false_of_alpha hca)]
    exact Bool.noConfusion)]
  rw [if_neg (show ¬ ((c :: t).all isDigitChar = true) by
    rw [List.all_cons, isDigitChar_false_of_alpha hca, Bool.false_and]
    exact Bool.noConfusion)]
  simp only [resolveTail]
  rw [if_neg (show ¬ (c = '-') by
    intro he
    rw [he] at hca
    exact absurd hca (by decide))]
  rw [if_neg (show ¬ (c = squote) by
    intro he
    rw [he] at hca
    exact absurd hca (by decide))]
  rw [if_pos hpso]

/-- The resolver reads a single-quoted quote-free string back as itself. -/
theorem resolveScalar_quoted (s : Str) (hq : s.contains squote = false) :
    resolveScalar (squote :: (s ++ [squote])) = .ok (.prim (.str s)) := by
  have hv : (fun w => w.head? == some squote) (squote :: (s ++ [squote])) = true := by
    simp
  have hnw : nullWords.contains (squote :: (s ++ [squote])) = false :=
    @contains_false_of_all_ne (fun w => w.head? == some squote) nullWords
      (squote :: (s ++ [squote])) (by decide) hv
  have htw : trueWords.contains (squote :: (s ++ [squote])) = false :=
    @contains_false_of_all_ne (fun w => w.head? == some squote) trueWords
      (squote :: (s ++ [squote])) (by decide) hv
  have hfw : falseWords.contains (squote :: (s ++ [squote])) = false :=
    @contains_false_of_all_ne (fun w => w.head? == some squote) falseWords
      (squote :: (s ++ [squote])) (by decide) hv
  unfold resolveScalar
  rw [if_neg (by simp : ¬ ((squote :: (s ++ [squote]) : Str) = []))]
  rw [if_neg (bool_ne_true hnw), if_neg (bool_ne_true htw), if_neg (bool_ne_true hfw)]
  rw [if_neg (show ¬ ((squote :: (s ++ [squote]) : Str) = [lbrace, rbrace]) by
    intro he
    have hcl : squote = lbrace := by injection he
    exact absurd hcl (by decide))]
  rw [if_neg (show ¬ (isDateShape (squote :: (s ++ [squote])) = true) by
    rw [isDateShape_false_of_head _ (by decide : isDigitChar squote = false)]
    exact Bool.noConfusion)]
  rw [if_neg (show ¬ ((squote :: (s ++ [squote])).all isDigitChar = true) by
    rw [List.all_cons, (by decide : isDigitChar squote = false), Bool.false_and]
    exact Bool.noConfusion)]
  simp only [resolveTail, List.getLast?_concat, List.dropLast_concat]
  rw [if_neg (by decide : ¬ (squote = '-')), if_pos trivial,
    if_pos (by simp [not_mem_of_contains_false hq])]

/-- The resolver reads a nonempty all-digits text as the decimal integer. -/
theorem resolveScalar_digits (v : Str) (hall : v.all isDigitChar = true)
    (hne : v ≠ []) :
    resolveScalar v = .ok (.prim (.int (digitsToNat v))) := by
  obtain ⟨c, t, hs⟩ : ∃ c t, v = c :: t := by
    cases v with
    | nil => exact absurd rfl hne
    | cons a b => exact ⟨a, b, rfl⟩
  subst hs
  have hcd : isDigitChar c = true := List.all_eq_true.mp hall c (List.mem_cons_self _ _)
  have hv : (fun w => w.head?.any isDigitChar) (c :: t) = true := by simp [hcd]
  have hnw : nullWords.contains (c :: t) = false :=
    @contains_false_of_all_ne (fun w => w.head?.any isDigitChar) nullWords
      (c :: t) (by decide) hv
  have htw : trueWords.contains (c :: t) = false :=
    @contains_false_of_all_ne (fun w => w.head?.any isDigitChar) trueWords
      (c :: t) (by decide) hv
  have hfw : falseWords.contains (c :: t) = false :=
    @contains_false_of_all_ne (fun w => w.head?.any isDigitChar) falseWords
      (c :: t) (by decide) hv
  unfold resolveScalar
  rw [if_neg (by simp : ¬ ((c :: t : Str) = []))]
  rw [if_neg (bool_ne_true hnw), if_neg (bool_ne_true htw), if_neg (bool_ne_true hfw)]
  rw [if_neg (show ¬ ((c :: t : Str) = [lbrace, rbrace]) by
    intro he
    have hcl : c = lbrace := by injection he
    rw [hcl] at hcd
    exact absurd hcd (by decide))]
  rw [if_neg (show ¬ (isDateShape (c :: t) = true) by
    rw [isDateShape_false_of_digits hall]
    exact Bool.noConfusion)]
  rw [if_pos hall]

/-- Character facts for one decimal digit. -/
theorem digitChar_spec (d : Nat) (h : d < 10) :
    isDigitChar (Char.ofNat (48 + d)) = true ∧
    (Char.ofNat (48 + d)).toNat = 48 + d := by
  interval_cases d <;> exact ⟨by decide, by decide⟩

/-- Digit-string value of a one-digit extension. -/
theorem digitsToNat_concat (A : Str) (c : Char) :
    digitsToNat (A ++ [c]) = 10 * digitsToNat A + (c.toNat - 48) := by
  unfold digitsToNat
  rw [List.foldl_append]
  simp only [List.foldl_cons, List.foldl_nil]
  omega

/-- The fuelled digit renderer emits the decimal digits of its input. -/
theorem natToStrGo_spec : ∀ (fuel n : Nat), n < 10 ^ (fuel + 1) →
    (natToStrGo (fuel + 1) n).all isDigitChar = true ∧
    digitsToNat (natToStrGo (fuel + 1) n) = n ∧ natToStrGo (fuel + 1) n ≠ [] := by
  intro fuel
  induction fuel with
  | zero =>
    intro n hn
    have h10 : n < 10 := by simpa using hn
    obtain ⟨hd, ht⟩ := digitChar_spec n h10
    simp only [natToStrGo, if_pos h10]
    refine ⟨by simp [hd], ?_, by simp⟩
    simp only [digitsToNat, List.foldl_cons, List.foldl_nil]
    rw [ht]
    omega
  | succ fuel ih =>
    intro n hn
    by_cases h10 : n < 10
    · obtain ⟨hd, ht⟩ := digitChar_spec n h10
      simp only [natToStrGo, if_pos h10]
      refine ⟨by simp [hd], ?_, by simp⟩
      simp only [digitsToNat, List.foldl_cons, List.foldl_nil]
      rw [ht]
      omega
    · have hdiv : n / 10 < 10 ^ (fuel + 1) := by
        rw [Nat.div_lt_iff_lt_mul (by norm_num)]
        calc n < 10 ^ (fuel + 1 + 1) := hn
        _ = 10 ^ (fuel + 1) * 10 := by ring
      obtain ⟨ha, hv, hne⟩ := ih (n / 10) hdiv
      have hm : n % 10 < 10 := Nat.mod_lt _ (by norm_num)
      obtain ⟨hd, ht⟩ := digitChar_spec (n % 10) hm
      have hstep : natToStrGo (fuel + 1 + 1) n =
          natToStrGo (fuel + 1) (n / 10) ++ [Char.ofNat (48 + n % 10)] := by
        simp only [natToStrGo]
        rw [if_neg h10]
      rw [hstep]
      refine ⟨?_, ?_, by simp⟩
      · rw [List.all_append]
        simp [ha, hd]
      · rw [digitsToNat_concat, hv, ht]
        omega

/-- Decimal rendering facts for naturals. -/
theorem natToStr_spec (n : Nat) :
    (natToStr n).all isDigitChar = true ∧ digitsToNat (natToStr n) = n ∧
    natToStr n ≠ [] := by
  have hn : n < 10 ^ (n + 1) :=
    lt_of_lt_of_le (Nat.lt_pow_self (by norm_num) n)
      (Nat.pow_le_pow_right (by norm_num) (Nat.le_succ n))
  exact natToStrGo_spec n n hn

/-- The resolver reads `str(int)` back as the integer. -/
theorem resolveScalar_int (n : Int) :
    resolveScalar (intToStr n) = .ok (.prim (.int n)) := by
  cases n with
  | ofNat m =>
    obtain ⟨hall, hval, hne⟩ := natToStr_spec m
    rw [show intToStr (Int.ofNat m) = natToStr m from rfl,
      resolveScalar_digits _ hall hne, hval]
    rfl
  | negSucc m =>
    obtain ⟨hall, hval, hne⟩ := natToStr_spec (m + 1)
    obtain ⟨c, t, hct⟩ : ∃ c t, natToStr (m + 1) = c :: t := by
      cases hx : natToStr (m + 1) with
      | nil => exact absurd hx hne
      | cons a b => exact ⟨a, b, rfl⟩
    have hveq : (fun w => w.head? == some '-') ('-' :: natToStr (m + 1)) = true := by
      simp
    have hnw : nullWords.contains ('-' :: natToStr (m + 1)) = false :=
      @contains_false_of_all_ne (fun w => w.head? == some '-') nullWords
        ('-' :: natToStr (m + 1)) (by decide) hveq
    have htw : trueWords.contains ('-' :: natToStr (m + 1)) = false :=
      @contains_false_of_all_ne (fun w => w.head? == some '-') trueWords
        ('-' :: natToStr (m + 1)) (by decide) hveq
    have hfw : falseWords.contains ('-' :: natToStr (m + 1)) = false :=
      @contains_false_of_all_ne (fun w => w.head? == some '-') falseWords
        ('-' :: natToStr (m + 1)) (by decide) hveq
    have hie : (natToStr (m + 1)).isEmpty = false := by rw [hct]; rfl
    have hvint : (-(digitsToNat (natToStr (m + 1)) : Int)) = Int.negSucc m := by
      rw [hval, Int.negSucc_eq]
      push_cast
      ring
    show resolveScalar ('-' :: natToStr (m + 1)) = .ok (.prim (.int (Int.negSucc m)))
    unfold resolveScalar
    rw [if_neg (by simp : ¬ (('-' :: natToStr (m + 1) : Str) = []))]
    rw [if_neg (bool_ne_true hnw), if_neg (bool_ne_true htw), if_neg (bool_ne_true hfw)]
    rw [if_neg (show ¬ (('-' :: natToStr (m + 1) : Str) = [lbrace, rbrace]) by
      intro he
      have hcl : '-' = lbrace := by injection he
      exact absurd hcl (by decide))]
    rw [if_neg (show ¬ (isDateShape ('-' :: natToStr (m + 1)) = true) by
      rw [isDateShape_false_of_head _ (by decide : isDigitChar '-' = false)]
      exact Bool.noConfusion)]
    rw [if_neg (show ¬ (('-' :: natToStr (m + 1)).all isDigitChar = true) by
      rw [List.all_cons, (by decide : isDigitChar '-' = false), Bool.false_and]
      exact Bool.noConfusion)]
    simp only [resolveTail, if_true]
    rw [if_pos (by rw [hie, hall]; rfl), hvint]

/-- A nonempty all-digit string has no space at either end. -/
theorem digits_head_last {w : Str} (hall : w.all isDigitChar = true) (hne : w ≠ []) :
    w.head? ≠ some ' ' ∧ w.getLast? ≠ some ' ' := by
  constructor
  · intro he
    have hm : ' ' ∈ w := List.mem_of_mem_head? he
    exact absurd (List.all_eq_true.mp hall ' ' hm) (by decide)
  · intro he
    have hm : ' ' ∈ w := List.mem_of_mem_getLast? he
    exact absurd (List.all_eq_true.mp hall ' ' hm) (by decide)

/-- Dumped scalars are nonempty with no space at either end. -/
theorem dumpScalar_facts (v : YScalar) (h : scalarDumpable v = true) :
    (dumpScalar v).head? ≠ some ' ' ∧ (dumpScalar v).getLast? ≠ some ' ' ∧
    dumpScalar v ≠ [] := by
  cases v with
  | str s =>
    by_cases hp : plainSafe s = true
    · obtain ⟨hA, -, hC, -, -, -, -, -⟩ := plainSafe_parts hp
      obtain ⟨c, t, hs, hca⟩ := head_alpha hA
      rw [show dumpScalar (.str s) = s from by simp [dumpScalar, hp]]
      subst hs
      refine ⟨?_, hC, by simp⟩
      rw [List.head?_cons]
      intro he
      injection he with ha
      rw [ha] at hca
      exact absurd hca (by decide)
    · rw [show dumpScalar (.str s) = squote :: (s ++ [squote]) from by
        simp [dumpScalar, hp]]
      refine ⟨?_, ?_, by simp⟩
      · rw [List.head?_cons]
        intro he
        injection he with ha
        exact absurd ha (by decide)
      · rw [show squote :: (s ++ [squote]) = (squote :: s) ++ [squote] from rfl,
          List.getLast?_concat]
        intro he
        injection he with ha
        exact absurd ha (by decide)
  | int n =>
    cases n with
    | ofNat m =>
      obtain ⟨hall, -, hne⟩ := natToStr_spec m
      obtain ⟨h1, h2⟩ := digits_head_last hall hne
      exact ⟨h1, h2, hne⟩
    | negSucc m =>
      obtain ⟨hall, -, hne⟩ := natToStr_spec (m + 1)
      obtain ⟨-, h2⟩ := digits_head_last hall hne
      refine ⟨?_, ?_, show (('-' :: natToStr (m + 1) : Str)) ≠ [] by simp⟩
      · show (('-' :: natToStr (m + 1) : Str)).head? ≠ some ' '
        rw [List.head?_cons]
        intro he
        injection he with ha
        exact absurd ha (by decide)
      · show (('-' :: natToStr (m + 1) : Str)).getLast? ≠ some ' '
        cases hw : natToStr (m + 1) with
        | nil => exact absurd hw hne
        | cons a b =>
          rw [List.getLast?_cons_cons]
          rw [hw] at h2
          exact h2
  | bool b => cases b <;> exact ⟨by decide, by decide, by decide⟩
  | null => exact ⟨by decide, by decide, by decide⟩
  | date y m d => exact Bool.noConfusion h

/-- Trimming a dumped scalar is the identity. -/
theorem trimSpaces_dumpScalar (v : YScalar) (h : scalarDumpable v = true) :
    trimSpaces (dumpScalar v) = dumpScalar v := by
  obtain ⟨h1, h2, -⟩ := dumpScalar_facts v h
  exact trimSpaces_id _ h1 h2

/-- The resolver reads back every dumped dumpable scalar. -/
theorem resolveScalar_dump (v : YScalar) (h : scalarDumpable v = true) :
    resolveScalar (dumpScalar v) = .ok (.prim v) := by
  cases v with
  | str s =>
    by_cases hp : plainSafe s = true
    · rw [show dumpScalar (.str s) = s from by simp [dumpScalar, hp]]
      exact resolveScalar_plain hp
    · have hq : s.contains squote = false := by
        simp only [scalarDumpable, Bool.and_eq_true, Bool.not_eq_true'] at h
        exact h.2
      rw [show dumpScalar (.str s) = squote :: (s ++ [squote]) from by
        simp [dumpScalar, hp]]
      exact resolveScalar_quoted s hq
  | int n => exact resolveScalar_int n
  | bool b => cases b <;> decide
  | null => decide
  | date y m d => exact Bool.noConfusion h

/-! ## C1: entries and documents round-trip -/

/-- A character list avoiding a char does not contain it. -/
theorem contains_eq_false {l : Str} {a : Char} (h : ∀ c ∈ l, c ≠ a) :
    l.contains a = false := by
  cases hc : l.contains a
  · rfl
  · exact absurd rfl (h a (List.mem_of_elem_eq_true hc))

/-- Introduction rule for `lineOk`. -/
theorem lineOk_intro (c : Char) (t : Str) (hc : ¬ (c = '-'))
    (hnl : ∀ x ∈ c :: t, x ≠ '\n') : lineOk (c :: t) = true := by
  simp only [lineOk, Bool.and_eq_true, decide_eq_true_eq, Bool.not_eq_true']
  exact ⟨hc, contains_eq_false hnl⟩

/-- Plain-safe strings contain no newline. -/
theorem plainSafe_no_nl {s : Str} (h : plainSafe s = true) : ∀ c ∈ s, c ≠ '\n' := by
  obtain ⟨-, hB, -, -, -, -, -, -⟩ := plainSafe_parts h
  intro c hc he
  have hx := List.all_eq_true.mp hB c hc
  rw [he] at hx
  exact absurd hx (by decide)

/-- Digit strings contain no newline. -/
theorem digits_no_nl {s : Str} (h : s.all isDigitChar = true) : ∀ c ∈ s, c ≠ '\n' := by
  intro c hc he
  have hx := List.all_eq_true.mp h c hc
  rw [he] at hx
  exact absurd hx (by decide)

/-- Dumped dumpable scalars contain no newline. -/
theorem dumpScalar_no_nl (v : YScalar) (h : scalarDumpable v = true) :
    ∀ c ∈ dumpScalar v, c ≠ '\n' := by
  cases v with
  | str s =>
    by_cases hp : plainSafe s = true
    · rw [show dumpScalar (.str s) = s from by simp [dumpScalar, hp]]
      exact plainSafe_no_nl hp
    · rw [show dumpScalar (.str s) = squote :: (s ++ [squote]) from by
        simp [dumpScalar, hp]]
      have hnl : s.contains '\n' = false := by
        simp only [scalarDumpable, Bool.and_eq_true, Bool.not_eq_true'] at h
        exact h.1
      intro c hc
      rcases List.mem_cons.mp hc with rfl | hc2
      · decide
      · rcases List.mem_append.mp hc2 with hcs | hcq
        · intro he
          rw [he] at hcs
          exact not_mem_of_contains_false hnl hcs
        · rcases List.mem_singleton.mp hcq with rfl
          decide
  | int n =>
    cases n with
    | ofNat m =>
      obtain ⟨hall, -, -⟩ := natToStr_spec m
      exact digits_no_nl hall
    | negSucc m =>
      obtain ⟨hall, -, -⟩ := natToStr_spec (m + 1)
      intro c hc
      rcases List.mem_cons.mp hc with rfl | hc2
      · decide
      · exact digits_no_nl hall c hc2
  | bool b => cases b <;> decide
  | null => decide
  | date y m d => exact Bool.noConfusion h

/-- The separator `": "` contains no newline, head line decomposition. -/
theorem head_line_no_nl (k : Str) (v : YScalar) (hk : plainSafe k = true)
    (hv : scalarDumpable v = true) :
    ∀ x ∈ k ++ (": ").data ++ dumpScalar v, x ≠ '\n' := by
  intro x hx
  rcases List.mem_append.mp hx with hx1 | hx2
  · rcases List.mem_append.mp hx1 with hxk | hxs
    · exact plainSafe_no_nl hk x hxk
    · intro he
      rw [he] at hxs
      exact absurd hxs (by decide)
  · exact dumpScalar_no_nl v hv x hx2

/-- An ASCII letter is not a Python whitespace character. -/
theorem isPySpace_false_of_alpha {c : Char} (h : isAlphaCh c = true) :
    isPySpace c = false := by
  cases hx : isPySpace c
  · rfl
  · exfalso
    simp only [isPySpace, Bool.or_eq_true, decide_eq_true_eq] at hx
    rcases hx with ((((hx | hx) | hx) | hx) | hx) | hx <;>
      (rw [hx] at h; exact absurd h (by decide))

/-- The head line of a dumped entry starts with the key's letter. -/
theorem entryHeadLine_head (k : Str) (v : YVal) (hk : plainSafe k = true) :
    ∃ c t, entryHeadLine (k, v) = c :: t ∧ isAlphaCh c = true := by
  obtain ⟨hA, -, -, -, -, -, -, -⟩ := plainSafe_parts hk
  obtain ⟨c, t0, hs, hca⟩ := head_alpha hA
  cases v with
  | prim v0 =>
    refine ⟨c, (t0 ++ (": ").data) ++ dumpScalar v0, ?_, hca⟩
    rw [show entryHeadLine (k, .prim v0) = k ++ (": ").data ++ dumpScalar v0 from rfl, hs]
    rfl
  | map sub =>
    cases sub with
    | nil =>
      refine ⟨c, (t0 ++ (": ").data) ++ [lbrace, rbrace], ?_, hca⟩
      rw [show entryHeadLine (k, .map []) = k ++ (": ").data ++ [lbrace, rbrace] from rfl, hs]
      rfl
    | cons e es =>
      refine ⟨c, t0 ++ (":").data, ?_, hca⟩
      rw [show entryHeadLine (k, .map (e :: es)) = k ++ (":").data from rfl, hs]
      rfl

/-- Decomposition of `fmDumpable`. -/
theorem fmDumpable_parts {fm : List (Str × YVal)} (h : fmDumpable fm = true) :
    (∀ kv ∈ fm, plainSafe kv.1 = true ∧ valDumpable kv.2 = true) ∧
    (fm.map Prod.fst).Nodup := by
  simp only [fmDumpable, Bool.and_eq_true, decide_eq_true_eq] at h
  refine ⟨fun kv hkv => ?_, h.2⟩
  have hx := List.all_eq_true.mp h.1 kv hkv
  simp only [Bool.and_eq_true] at hx
  exact hx

/-- Every line of a dumped entry passes the close-fence scan predicate. -/
theorem dumpEntryLines_ok (k : Str) (v : YVal) (hk : plainSafe k = true)
    (hv : valDumpable v = true) :
    ∀ l ∈ dumpEntryLines (k, v), lineOk l = true := by
  obtain ⟨hA, -, -, -, -, -, -, -⟩ := plainSafe_parts hk
  obtain ⟨c, t0, hs, hca⟩ := head_alpha hA
  have hcdash : ¬ (c = '-') := by
    intro he
    rw [he] at hca
    exact absurd hca (by decide)
  cases v with
  | prim v0 =>
    intro l hl
    rcases List.mem_singleton.mp hl with rfl
    have hmem : ∀ x ∈ k ++ (": ").data ++ dumpScalar v0, x ≠ '\n' :=
      head_line_no_nl k v0 hk hv
    rw [hs] at hmem ⊢
    exact lineOk_intro c ((t0 ++ (": ").data) ++ dumpScalar v0) hcdash hmem
  | map sub =>
    cases sub with
    | nil =>
      intro l hl
      rcases List.mem_singleton.mp hl with rfl
      have hmem : ∀ x ∈ k ++ (": ").data ++ [lbrace, rbrace], x ≠ '\n' := by
        intro x hx
        rcases List.mem_append.mp hx with hx1 | hx2
        · rcases List.mem_append.mp hx1 with hxk | hxs
          · exact plainSafe_no_nl hk x hxk
          · intro he
            rw [he] at hxs
            exact absurd hxs (by decide)
        · intro he
          rw [he] at hx2
          exact absurd hx2 (by decide)
      rw [hs] at hmem ⊢
      exact lineOk_intro c ((t0 ++ (": ").data) ++ [lbrace, rbrace]) hcdash hmem
    | cons e es =>
      intro l hl
      rcases List.mem_cons.mp hl with rfl | hl2
      · have hmem : ∀ x ∈ k ++ (":").data, x ≠ '\n' := by
          intro x hx
          rcases List.mem_append.mp hx with hxk | hxs
          · exact plainSafe_no_nl hk x hxk
          · intro he
            rw [he] at hxs
            exact absurd hxs (by decide)
        rw [hs] at hmem ⊢
        exact lineOk_intro c (t0 ++ (":").data) hcdash hmem
      · rw [List.mem_map] at hl2
        obtain ⟨kv2, hkv2, rfl⟩ := hl2
        have hsub : plainSafe kv2.1 = true ∧ scalarDumpable kv2.2 = true := by
          simp only [valDumpable, Bool.and_eq_true, decide_eq_true_eq] at hv
          have hx := List.all_eq_true.mp hv.1 kv2 hkv2
          simp only [Bool.and_eq_true] at hx
          exact hx
        refine lineOk_intro ' ' ((([' '] : Str) ++ kv2.1 ++ (": ").data) ++ dumpScalar kv2.2)
          (by decide) ?_
        have hmem : ∀ x ∈ ("  ").data ++ kv2.1 ++ (": ").data ++ dumpScalar kv2.2,
            x ≠ '\n' := by
          intro x hx
          rcases List.mem_append.mp hx with hx1 | hx2
          · rcases List.mem_append.mp hx1 with hx3 | hxs
            · rcases List.mem_append.mp hx3 with hxsp | hxk
              · intro he
                rw [he] at hxsp
                exact absurd hxsp (by decide)
              · exact plainSafe_no_nl hsub.1 x hxk
            · intro he
              rw [he] at hxs
              exact absurd hxs (by decide)
          · exact dumpScalar_no_nl kv2.2 hsub.2 x hx2
        exact hmem

/-- Every dumped frontmatter line passes the scan predicate. -/
theorem dumpFM_lines_ok (fm : List (Str × YVal)) (hfm : fmDumpable fm = true) :
    ∀ l ∈ dumpFM fm, lineOk l = true := by
  cases fm with
  | nil =>
    intro l hl
    rcases List.mem_singleton.mp hl with rfl
    decide
  | cons kv0 rest =>
    intro l hl
    rw [show dumpFM (kv0 :: rest) = ((kv0 :: rest).map dumpEntryLines).flatten from rfl,
      List.mem_flatten] at hl
    obtain ⟨ls, hls, hlm⟩ := hl
    rw [List.mem_map] at hls
    obtain ⟨kv, hkv, rfl⟩ := hls
    obtain ⟨hall, -⟩ := fmDumpable_parts hfm
    obtain ⟨h1, h2⟩ := hall kv hkv
    exact dumpEntryLines_ok kv.1 kv.2 h1 h2 l hlm

/-- The first dumped line starts with a non-whitespace character. -/
theorem dumpFM_head (fm : List (Str × YVal)) (hfm : fmDumpable fm = true) :
    ∃ c r rest, dumpFM fm = (c :: r) :: rest ∧ isPySpace c = false := by
  cases fm with
  | nil => exact ⟨lbrace, [rbrace], [], rfl, by decide⟩
  | cons kv0 rest0 =>
    obtain ⟨hall, -⟩ := fmDumpable_parts hfm
    obtain ⟨h1, -⟩ := hall kv0 (List.mem_cons_self _ _)
    obtain ⟨c, t, hline, hca⟩ := entryHeadLine_head kv0.1 kv0.2 h1
    obtain ⟨subs, hsubs⟩ : ∃ subs,
        dumpEntryLines (kv0.1, kv0.2) = entryHeadLine (kv0.1, kv0.2) :: subs := by
      cases hv2 : kv0.2 with
      | prim v0 => exact ⟨[], rfl⟩
      | map sub =>
        cases sub with
        | nil => exact ⟨[], rfl⟩
        | cons e es => exact ⟨_, rfl⟩
    refine ⟨c, t, subs ++ ((rest0.map dumpEntryLines).flatten), ?_, isPySpace_false_of_alpha hca⟩
    rw [show dumpFM (kv0 :: rest0) = ((kv0 :: rest0).map dumpEntryLines).flatten from rfl,
      List.map_cons, List.flatten_cons]
    rw [show dumpEntryLines kv0 = dumpEntryLines (kv0.1, kv0.2) from rfl, hsubs, hline]
    rfl

/-- Joining a nonempty first line yields a nonempty string. -/
theorem intercalateNl_ne_nil (l : Str) (ls : List Str) (hl : l ≠ []) :
    intercalateNl (l :: ls) ≠ [] := by
  cases ls with
  | nil => exact hl
  | cons l2 ls2 =>
    show l ++ '\n' :: intercalateNl (l2 :: ls2) ≠ []
    simp

/-- A dedented nested line parses back to its key/scalar pair. -/
theorem parseSubLine_dump (k : Str) (v : YScalar) (hk : plainSafe k = true)
    (hv : scalarDumpable v = true) :
    parseSubLine (k ++ (": ").data ++ dumpScalar v) = .ok (k, v) := by
  obtain ⟨hA, -, hC, -, hE, -, -, -⟩ := plainSafe_parts hk
  obtain ⟨c, t, hs, hca⟩ := head_alpha hA
  have hkne : k ≠ [] := by rw [hs]; simp
  have hkhead : k.head? ≠ some ' ' := by
    rw [hs, List.head?_cons]
    intro he
    injection he with ha
    rw [ha] at hca
    exact absurd hca (by decide)
  have hhead : ¬ ((k ++ (": ").data ++ dumpScalar v).head? = some ' ') := by
    rw [List.append_assoc, List.head?_append_of_ne_nil _ hkne]
    exact hkhead
  have hsplit : splitKV (k ++ (": ").data ++ dumpScalar v) = some (k, dumpScalar v) := by
    rw [List.append_assoc]
    exact splitKV_sep k (dumpScalar v) hE
  have htrimk : trimSpaces k = k := trimSpaces_id k hkhead hC
  unfold parseSubLine
  rw [if_neg hhead]
  simp only [hsplit, Except.bind, Bind.bind]
  rw [htrimk, resolveScalar_plain hk]
  simp only [Except.bind, Bind.bind]
  rw [trimSpaces_dumpScalar v hv, resolveScalar_dump v hv]
  rfl

/-- The dedented nested block parses back entrywise. -/
theorem mapM_parseSubLine (sub : List (Str × YScalar))
    (h : ∀ kv ∈ sub, plainSafe kv.1 = true ∧ scalarDumpable kv.2 = true) :
    (sub.map (fun kv => kv.1 ++ (": ").data ++ dumpScalar kv.2)).mapM parseSubLine =
      .ok sub := by
  induction sub with
  | nil => rfl
  | cons kv rest ih =>
    rw [List.map_cons, List.mapM_cons]
    obtain ⟨h1, h2⟩ := h kv (List.mem_cons_self _ _)
    rw [parseSubLine_dump kv.1 kv.2 h1 h2,
      ih (fun x hx => h x (List.mem_cons_of_mem _ hx))]
    rfl

/-- A scalar-valued dumped entry parses back. -/
theorem parseEntry_dump_prim (k : Str) (v : YScalar) (hk : plainSafe k = true)
    (hv : scalarDumpable v = true) :
    parseEntry (entryHeadLine (k, .prim v), entrySubLines (k, .prim v)) =
      .ok (k, .prim v) := by
  obtain ⟨hA, -, hC, -, hE, -, -, -⟩ := plainSafe_parts hk
  obtain ⟨c, t, hs, hca⟩ := head_alpha hA
  have hkne : k ≠ [] := by rw [hs]; simp
  have hkhead : k.head? ≠ some ' ' := by
    rw [hs, List.head?_cons]
    intro he
    injection he with ha
    rw [ha] at hca
    exact absurd hca (by decide)
  have hhead : ¬ ((k ++ (": ").data ++ dumpScalar v).head? = some ' ') := by
    rw [List.append_assoc, List.head?_append_of_ne_nil _ hkne]
    exact hkhead
  have hsplit : splitKV (k ++ (": ").data ++ dumpScalar v) = some (k, dumpScalar v) := by
    rw [List.append_assoc]
    exact splitKV_sep k (dumpScalar v) hE
  have htrimk : trimSpaces k = k := trimSpaces_id k hkhead hC
  have hdne : dumpScalar v ≠ [] := (dumpScalar_facts v hv).2.2
  show parseEntry (k ++ (": ").data ++ dumpScalar v, []) = .ok (k, .prim v)
  unfold parseEntry
  rw [if_neg hhead]
  simp only [hsplit, Except.bind, Bind.bind]
  rw [htrimk, resolveScalar_plain hk]
  simp only [Except.bind, Bind.bind]
  rw [trimSpaces_dumpScalar v hv]
  rw [if_neg hdne, if_pos trivial]
  rw [resolveScalar_dump v hv]
  rfl

/-- An empty-mapping dumped entry parses back to the flow form. -/
theorem parseEntry_dump_empty_map (k : Str) (hk : plainSafe k = true) :
    parseEntry (entryHeadLine (k, .map []), entrySubLines (k, .map [])) =
      .ok (k, .map []) := by
  obtain ⟨hA, -, hC, -, hE, -, -, -⟩ := plainSafe_parts hk
  obtain ⟨c, t, hs, hca⟩ := head_alpha hA
  have hkne : k ≠ [] := by rw [hs]; simp
  have hkhead : k.head? ≠ some ' ' := by
    rw [hs, List.head?_cons]
    intro he
    injection he with ha
    rw [ha] at hca
    exact absurd hca (by decide)
  have hhead : ¬ ((k ++ (": ").data ++ [lbrace, rbrace]).head? = some ' ') := by
    rw [List.append_assoc, List.head?_append_of_ne_nil _ hkne]
    exact hkhead
  have hsplit : splitKV (k ++ (": ").data ++ [lbrace, rbrace]) =
      some (k, [lbrace, rbrace]) := by
    rw [List.append_assoc]
    exact splitKV_sep k [lbrace, rbrace] hE
  have htrimk : trimSpaces k = k := trimSpaces_id k hkhead hC
  show parseEntry (k ++ (": ").data ++ [lbrace, rbrace], []) = .ok (k, .map [])
  unfold parseEntry
  rw [if_neg hhead]
  simp only [hsplit, Except.bind, Bind.bind]
  rw [htrimk, resolveScalar_plain hk]
  simp only [Except.bind, Bind.bind]
  rw [show trimSpaces [lbrace, rbrace] = [lbrace, rbrace] from by decide]
  rw [if_neg (by decide : ¬ (([lbrace, rbrace] : Str) = [])), if_pos trivial]
  rw [show resolveScalar [lbrace, rbrace] = .ok (.map []) from by decide]
  rfl

/-- A nested-mapping dumped entry parses back from its indented block. -/
theorem parseEntry_dump_map (k : Str) (e : Str × YScalar) (es : List (Str × YScalar))
    (hk : plainSafe k = true)
    (hsub : ∀ kv ∈ e :: es, plainSafe kv.1 = true ∧ scalarDumpable kv.2 = true)
    (hnd : ((e :: es).map Prod.fst).Nodup) :
    parseEntry (entryHeadLine (k, .map (e :: es)), entrySubLines (k, .map (e :: es))) =
      .ok (k, .map (e :: es)) := by
  obtain ⟨hA, -, hC, hD, hE, -, -, -⟩ := plainSafe_parts hk
  obtain ⟨c, t, hs, hca⟩ := head_alpha hA
  have hkne : k ≠ [] := by rw [hs]; simp
  have hkhead : k.head? ≠ some ' ' := by
    rw [hs, List.head?_cons]
    intro he
    injection he with ha
    rw [ha] at hca
    exact absurd hca (by decide)
  have hhead : ¬ ((k ++ (":").data).head? = some ' ') := by
    rw [List.head?_append_of_ne_nil _ hkne]
    exact hkhead
  have hsplit : splitKV (k ++ (":").data) = some (k, []) := splitKV_colon k hE hD
  have htrimk : trimSpaces k = k := trimSpaces_id k hkhead hC
  show parseEntry (k ++ (":").data,
      (e :: es).map (fun kv2 => kv2.1 ++ (": ").data ++ dumpScalar kv2.2)) =
    .ok (k, .map (e :: es))
  unfold parseEntry
  rw [if_neg hhead]
  simp only [hsplit, Except.bind, Bind.bind]
  rw [htrimk, resolveScalar_plain hk]
  simp only [Except.bind, Bind.bind]
  rw [show trimSpaces ([] : Str) = [] from rfl, if_pos rfl]
  have hmapM : (List.map (fun kv2 => kv2.1 ++ ([':', ' '] : Str) ++ dumpScalar kv2.2)
      (e :: es)).mapM parseSubLine = .ok (e :: es) := mapM_parseSubLine (e :: es) hsub
  split
  · rename_i heq
    exact absurd heq (by simp)
  · rename_i sub heq
    rw [hmapM]
    show (if (List.map Prod.fst (e :: es)).Nodup then
        (.ok (k, YVal.map (e :: es)) : Except PyErr (Str × YVal))
      else .error .yamlError) =
      .ok (k, YVal.map (e :: es))
    rw [if_pos hnd]

/-- All grouped dumped entries parse back to the frontmatter pairs. -/
theorem mapM_parseEntry_dump (fm : List (Str × YVal))
    (hfm : ∀ kv ∈ fm, plainSafe kv.1 = true ∧ valDumpable kv.2 = true) :
    (fm.map (fun kv => (entryHeadLine kv, entrySubLines kv))).mapM parseEntry =
      .ok fm := by
  induction fm with
  | nil => rfl
  | cons kv rest ih =>
    rw [List.map_cons, List.mapM_cons]
    obtain ⟨h1, h2⟩ := hfm kv (List.mem_cons_self _ _)
    obtain ⟨k, v⟩ := kv
    have hentry : parseEntry (entryHeadLine (k, v), entrySubLines (k, v)) = .ok (k, v) := by
      cases v with
      | prim v0 => exact parseEntry_dump_prim k v0 h1 h2
      | map sub =>
        cases sub with
        | nil => exact parseEntry_dump_empty_map k h1
        | cons e es =>
          simp only [valDumpable, Bool.and_eq_true, decide_eq_true_eq] at h2
          refine parseEntry_dump_map k e es h1 ?_ h2.2
          intro x hx
          have hy := List.all_eq_true.mp h2.1 x hx
          simp only [Bool.and_eq_true] at hy
          exact hy
    rw [hentry, ih (fun x hx => hfm x (List.mem_cons_of_mem _ hx))]
    rfl

/-- The modelled `yaml.safe_load` re-reads the dumped frontmatter. -/
theorem yamlLoadDoc_dump (fm : List (Str × YVal)) (hfm : fmDumpable fm = true) :
    yamlLoadDoc (intercalateNl (dumpFM fm)) = .ok (.map fm) := by
  cases fm with
  | nil => decide
  | cons kv0 fmrest =>
    obtain ⟨hall, hnd⟩ := fmDumpable_parts hfm
    have hlinesok := dumpFM_lines_ok (kv0 :: fmrest) hfm
    have hnonl : ∀ l ∈ dumpFM (kv0 :: fmrest), ∀ x ∈ l, x ≠ '\n' := by
      intro l hl
      have hok := hlinesok l hl
      cases l with
      | nil => exact absurd hok (by decide)
      | cons a b =>
        simp only [lineOk, Bool.and_eq_true, Bool.not_eq_true'] at hok
        intro x hx he
        rw [he] at hx
        exact not_mem_of_contains_false hok.2 hx
    obtain ⟨c0, r0, rest0, hdf, -⟩ := dumpFM_head (kv0 :: fmrest) hfm
    have hne0 : intercalateNl (dumpFM (kv0 :: fmrest)) ≠ [] := by
      rw [hdf]
      exact intercalateNl_ne_nil _ _ (by simp)
    have hhead : ∀ kv ∈ kv0 :: fmrest,
        ∃ c t, entryHeadLine kv = c :: t ∧ ¬ (c = ' ') := by
      intro kv hkv
      obtain ⟨h1, -⟩ := hall kv hkv
      obtain ⟨c, t, hline, hca⟩ := entryHeadLine_head kv.1 kv.2 h1
      exact ⟨c, t, hline, isAlphaCh_not_space hca⟩
    have hgroup : groupEntries (dumpFM (kv0 :: fmrest)) =
        some ((kv0 :: fmrest).map (fun kv => (entryHeadLine kv, entrySubLines kv))) := by
      rw [show dumpFM (kv0 :: fmrest) =
        (((kv0 :: fmrest)).map dumpEntryLines).flatten from rfl]
      exact groupEntries_dump (kv0 :: fmrest) hhead
    unfold yamlLoadDoc
    rw [if_neg hne0,
      splitNl_intercalate (dumpFM (kv0 :: fmrest)) (by rw [hdf]; simp) hnonl]
    simp only [hgroup]
    rw [mapM_parseEntry_dump (kv0 :: fmrest) hall]
    show (if (List.map Prod.fst (kv0 :: fmrest)).Nodup
        then (.ok (YDoc.map (kv0 :: fmrest)) : Except PyErr YDoc)
        else .error .yamlError) = .ok (YDoc.map (kv0 :: fmrest))
    rw [if_pos hnd]

/-- `parse_frontmatter` on `serialize_frontmatter` output recovers the
frontmatter mapping and the body. -/
theorem parseFrontmatter_serialize (fm : List (Str × YVal)) (md : Str)
    (hfm : fmDumpable fm = true) (hmd : mdLeadOk md = true) :
    parseFrontmatter (serializeFrontmatter fm md) = .ok (.map fm, md) := by
  have hsplit := parseFmSplit_serialize fm md (dumpFM_lines_ok fm hfm)
    (dumpFM_head fm hfm) hmd
  unfold parseFrontmatter
  rw [hsplit]
  simp only [yamlLoadDoc_dump fm hfm]
  cases fm with
  | nil => rfl
  | cons a b => rfl

/-- C1 counterexample: saving body `"\nhello"` and loading back returns
body `"hello"` — the regex's trailing `\s*\n` absorbs the body's leading
newline, so `markdown_content` does not round-trip for every `md`. -/
theorem project_roundtrip_counterexample :
    (match saveProject [] (("p").data)
        [((("name").data), .prim (.str (("x").data)))] (("\nhello").data) with
     | .ok fs1 =>
       match loadProject fs1 (("p").data) with
       | .ok (some p) => p.markdown_content
       | _ => []
     | .error _ => []) = ("hello").data ∧
    ¬ ((("hello").data : Str) = ("\nhello").data) := ⟨by decide, by decide⟩

/-- C1 (amended): for a valid slug, a frontmatter dictionary of the
persisted fragment (plain distinct keys, dumpable values, at most one
nesting level under `video`, no truthy scalar `video`), and a body whose
leading whitespace holds no newline, `save_project` followed by
`load_project` returns the saved body as `markdown_content` and each
name/date/draft/pinned/youtube field from the persisted frontmatter with
its documented default when absent; `expectedProject` carries the video
subfields likewise. -/
theorem project_save_load_roundtrip (fs : FS) (slug : Str)
    (fm : List (Str × YVal)) (md : Str)
    (hs : validSlug slug = true) (hfm : fmDumpable fm = true)
    (hvid : videoFieldOk fm = true) (hmd : mdLeadOk md = true) :
    saveProject fs slug fm md = .ok (alSet slug (serializeFrontmatter fm md) fs) ∧
    loadProject (alSet slug (serializeFrontmatter fm md) fs) slug =
      .ok (some (expectedProject slug fm md)) ∧
    (expectedProject slug fm md).markdown_content = md ∧
    (expectedProject slug fm md).name =
      (alLookup (("name").data) fm).getD (.prim (.str slug)) ∧
    (expectedProject slug fm md).creation_date =
      (alLookup (("date").data) fm).getD (.prim .null) ∧
    (expectedProject slug fm md).is_draft =
      (alLookup (("draft").data) fm).getD (.prim (.bool false)) ∧
    (expectedProject slug fm md).pinned =
      (alLookup (("pinned").data) fm).getD (.prim (.bool false)) ∧
    (expectedProject slug fm md).youtube_link =
      (alLookup (("youtube").data) fm).getD (.prim .null) := by
  have hpf := parseFrontmatter_serialize fm md hfm hmd
  refine ⟨by simp [saveProject, hs], ?_, ?_, ?_, ?_, ?_, ?_, ?_⟩
  · unfold loadProject
    rw [if_neg (by simp [hs]), alLookup_alSet_self]
    simp only [hpf]
    unfold expectedProject
    cases hfv : fmGet fm "video" (.map []) with
    | prim s =>
      have hfalse : pyTruthyS s = false := by
        unfold videoFieldOk at hvid
        cases halk : alLookup (("video").data) fm with
        | none =>
          exfalso
          unfold fmGet at hfv
          rw [halk] at hfv
          exact YVal.noConfusion hfv
        | some w =>
          unfold fmGet at hfv
          rw [halk] at hfv
          simp only [Option.getD_some] at hfv
          rw [halk, hfv] at hvid
          simp only [Bool.not_eq_true'] at hvid
          exact hvid
      rw [if_neg (bool_ne_true (show pyTruthyV (.prim s) = false from hfalse))]
    | map vm =>
      cases vm with
      | nil =>
        rw [if_neg (by decide : ¬ (pyTruthyV (.map []) = true))]
      | cons e es =>
        rw [if_pos (show pyTruthyV (.map (e :: es)) = true from rfl)]
  · unfold expectedProject
    cases hfv : fmGet fm "video" (.map []) with
    | prim s => rfl
    | map vm => cases vm <;> rfl
  · unfold expectedProject
    cases hfv : fmGet fm "video" (.map []) with
    | prim s => rfl
    | map vm => cases vm <;> rfl
  · unfold expectedProject
    cases hfv : fmGet fm "video" (.map []) with
    | prim s => rfl
    | map vm => cases vm <;> rfl
  · unfold expectedProject
    cases hfv : fmGet fm "video" (.map []) with
    | prim s => rfl
    | map vm => cases vm <;> rfl
  · unfold expectedProject
    cases hfv : fmGet fm "video" (.map []) with
    | prim s => rfl
    | map vm => cases vm <;> rfl
  · unfold expectedProject
    cases hfv : fmGet fm "video" (.map []) with
    | prim s => rfl
    | map vm => cases vm <;> rfl

/-- Witness for C1 at a concrete project: save then load yields the
expected record, whose markdown content is exactly the saved body. -/
theorem project_save_load_roundtrip_witness :
    loadProject (alSet (("w1").data) (serializeFrontmatter c1fm c1md) [])
      (("w1").data) = .ok (some (expectedProject (("w1").data) c1fm c1md)) ∧
    (expectedProject (("w1").data) c1fm c1md).markdown_content = c1md :=
  ⟨(project_save_load_roundtrip [] (("w1").data) c1fm c1md (by decide) (by decide)
      (by decide) (by decide)).2.1,
    (project_save_load_roundtrip [] (("w1").data) c1fm c1md (by decide) (by decide)
      (by decide) (by decide)).2.2.1⟩

end Billy
